import Mathlib

/-!
# terminal_rain: the lightning-bolt engine of `src/main.cpp`

A shallow embedding of the `LightningBolt` class and of the update phase of the main loop,
followed by theorems about them.

Modelling conventions.

* `int` values are `Int`; `/` on `int` is truncating division (`Int.tdiv`).  `size_t` values are
  `Nat`; the implicit `int → size_t` conversion is `size_t_of_int`.
* A `time_point` is the tick count of `high_res_clock` (nanoseconds), an `Int`.  Durations are tick
  differences, so `LIGHTNING_GROWTH_DELAY` (5 ms) is `5000000` and `SEGMENT_LIFESPAN` (0.9 s) is
  `900000000`.  The source compares `duration_sec(d) < SEGMENT_LIFESPAN` in `double`; for an
  integral tick count `d` that comparison holds exactly when `d < 900000000`
  (`duration_sec_lt_lifespan`).
* The two external sources a bolt reads from are streams held in `World`: the raw outputs the
  `std::mt19937` will produce and the readings `high_res_clock::now()` will return, both in call
  order.  Every draw and every clock read consumes the head of its stream.
* The `double` computations of `draw` (the age in seconds, the age ratio and the three
  comparisons) are carried out in binary64 arithmetic, type `Double`.  The `float` quantities of
  the spawn test (the spawn draw and the configured spawn chance) are exact rationals.
* The POSIX build is modelled (`#ifndef _WIN32`): the `resized` flag is an input of each frame.
  The loops over `i < width` traverse `drops`, whose size is `width` from set-up on.
-/

set_option autoImplicit false

namespace TerminalRain

/-! ## External sources -/

/-- The generator outputs and the clock readings still to come, in call order.  A clock reading
(`time_point`) is the tick count of `high_res_clock`, in nanoseconds. -/
structure World where
  generator : Nat → Nat
  clock : Nat → Int

/-- Reading of `high_res_clock::now()`: returns the next clock reading. -/
def now (w : World) : Int × World :=
  (w.clock 0, { w with clock := fun n => w.clock (n + 1) })

/-- Draw of `std::uniform_int_distribution<int>(a, b)(generator)`: consumes one raw output and
maps it into `[a, b]`; every value of the range is drawn for some raw output.  The C++
precondition is `a ≤ b`.  For `b < a` the behaviour is undefined in C++; the value `a + raw`
returned here is a placeholder on which no theorem below depends. -/
def uniform_int_distribution (a b : Int) (w : World) : Int × World :=
  (a + ((w.generator 0 % (b - a + 1).toNat : Nat) : Int),
   { w with generator := fun n => w.generator (n + 1) })

/-- Draw of `std::uniform_real_distribution<float>(a, b)(generator)`: one 32-bit raw output scaled
into `[a, b)`. -/
def uniform_real_distribution (a b : ℚ) (w : World) : ℚ × World :=
  (a + (b - a) * (((w.generator 0 % 4294967296 : Nat) : ℚ) / 4294967296),
   { w with generator := fun n => w.generator (n + 1) })

/-- Implicit conversion `int → size_t` (64-bit). -/
def size_t_of_int (v : Int) : Nat := (v % 18446744073709551616).toNat

/-! ## `double` arithmetic

IEEE 754 binary64 with the default rounding (to nearest, ties to even), every operation rounded
once, as on the platforms where `double` expressions are evaluated in `double`.  A finite
`double` is kept as the dyadic number `m * 2^e`; a non-zero result of a rounding has
`2^52 ≤ |m| < 2^53` or `|m| = 2^53`, both of which denote the value IEEE rounds to.  The exponent
is unbounded: overflow, subnormals, infinities and NaN are not modelled, and none of them arises
from the operands of `draw` (integral tick counts, `10^9`, `0.9`, `0.33`, `0.66`).  Division by
zero is not modelled either; `draw` only divides by `10^9` and by `0.9`. -/

/-- A finite `double`: the number `m * 2^e`. -/
structure Double where
  m : Int
  e : Int
deriving DecidableEq, Repr

/-- The rational number a `double` denotes. -/
def Double.val (a : Double) : ℚ := a.m * (2 : ℚ) ^ a.e

/-- Number of binary digits of `n`, by halving; `fuel` bounds the number of halvings. -/
def bit_length_aux : Nat → Nat → Nat
  | 0, _ => 0
  | fuel + 1, n => if n = 0 then 0 else 1 + bit_length_aux fuel (n / 2)

/-- Number of binary digits of `n` (`0` for `n = 0`). -/
def bit_length (n : Nat) : Nat := bit_length_aux n n

/-- The integer nearest to `N / D`, a tie going to the even one. -/
def round_half_even (N D : Nat) : Nat :=
  if 2 * (N % D) < D then N / D
  else if D < 2 * (N % D) then N / D + 1
  else if (N / D) % 2 = 0 then N / D
  else N / D + 1

/-- Exponent of the `double` nearest to `a / d` (`a, d > 0`): the `e` with
`2^52 ≤ (a / d) / 2^e < 2^53`. -/
def frac_exponent (a d : Nat) : Int :=
  let k : Int := (bit_length a : Int) - (bit_length d : Int) - 52
  if 4503599627370496 * (d * 2 ^ k.toNat) ≤ a * 2 ^ (-k).toNat then k else k - 1

/-- Significand of the `double` nearest to `a / d`: `(a / d) / 2^e` rounded to an integer. -/
def frac_mantissa (a d : Nat) : Nat :=
  round_half_even (a * 2 ^ (-frac_exponent a d).toNat) (d * 2 ^ (frac_exponent a d).toNat)

/-- The `double` nearest to the fraction `n / d` (`d > 0`): the value of a decimal literal such
as `0.9` (`double_of_frac 9 10`), and the one rounding of a conversion or a division. -/
def double_of_frac (n : Int) (d : Nat) : Double :=
  if n = 0 then ⟨0, 0⟩
  else ⟨n.sign * (frac_mantissa n.natAbs d : Nat), frac_exponent n.natAbs d⟩

/-- Conversion `static_cast<double>(n)` of a 64-bit integer. -/
def double_of_int (n : Int) : Double := double_of_frac n 1

/-- Operator `/` on `double` (divisor not zero): the quotient of the significands is rounded, the
exponents are subtracted. -/
def Double.div (a b : Double) : Double :=
  let q := double_of_frac (a.m * b.m.sign) b.m.natAbs
  ⟨q.m, q.e + (a.e - b.e)⟩

/-- Operator `<` on `double`: the significands are compared at the smaller exponent. -/
def Double.lt (a b : Double) : Bool :=
  decide (a.m * 2 ^ (a.e - min a.e b.e).toNat < b.m * 2 ^ (b.e - min a.e b.e).toNat)

/-- Conversion of a tick difference of `high_res_clock` (nanoseconds) to `duration_sec`
(`std::chrono::duration<double>`, line 29): the count in seconds, computed by
`static_cast<double>(d) / static_cast<double>(1000000000)`. -/
def duration_sec (d : Int) : Double := (double_of_int d).div (double_of_int 1000000000)

/-! ## Configuration constants (lines 33-39) -/

def DEFAULT_LIGHTNING_CHANCE : ℚ := 5 / 100
def FORK_CHANCE : Int := 13
def SUBFORK_CHANCE : Int := 5
def FRAME_DELAY : Int := 45000000
def LIGHTNING_GROWTH_DELAY : Int := 5000000
def SEGMENT_LIFESPAN : Int := 900000000
/-- Value of `SEGMENT_LIFESPAN.count()`: the `double` of the literal `0.9`. -/
def SEGMENT_LIFESPAN_count : Double := double_of_frac 9 10
abbrev LIGHTNING_CHARS : List Char := ['*', '+', '#']

/-! ## Data model (lines 43-55) -/

structure LightningSegment where
  x : Int
  y : Int
  creation_time : Int
deriving DecidableEq, Repr

structure LightningBolt where
  segments : List LightningSegment
  last_growth_time : Int
  is_growing : Bool
  max_y : Int
  max_x : Int
  target_length : Nat
deriving DecidableEq, Repr

/-! ## `LightningBolt` (lines 58-141) -/

set_option linter.dupNamespace false in
/-- Constructor `LightningBolt::LightningBolt` (lines 58-65). -/
def LightningBolt.LightningBolt (start_x start_y term_width term_height : Int) (w : World) :
    TerminalRain.LightningBolt × World :=
  let t0 := now w
  let len := uniform_int_distribution (term_height.tdiv 2) (term_height - 2) t0.2
  let t1 := now len.2
  ({ segments := [{ x := start_x, y := start_y, creation_time := t1.1 }],
     last_growth_time := t0.1,
     is_growing := true,
     max_y := term_height,
     max_x := term_width,
     target_length := size_t_of_int len.1 },
   t1.2)

/-- Draw of the fork length `len_dist(generator)` at the head of `addFork` (lines 128-129). -/
def len_dist (max_y : Int) (w : World) : Int × World :=
  uniform_int_distribution (max_y.tdiv 6) (max_y.tdiv 3) w

mutual
/-- Method `LightningBolt::addFork` (lines 126-141).  It reads `max_x`, `max_y` and appends to
`segments`; the other fields of the bolt are not touched. -/
def addFork (max_x max_y : Int) (start_point : LightningSegment)
    (segments : List LightningSegment) (w : World) : List LightningSegment × World :=
  let len := len_dist max_y w
  addFork_loop max_x max_y len.1 0 start_point segments len.2
termination_by ((max_y - 1 - start_point.y).toNat, 1)
decreasing_by
  all_goals simp [Prod.lex_def]
/-- The `for` loop of `addFork` (lines 130-140), entered with loop counter `i`. -/
def addFork_loop (max_x max_y fork_len i : Int) (start_point : LightningSegment)
    (segments : List LightningSegment) (w : World) : List LightningSegment × World :=
  if i < fork_len ∧ start_point.y < max_y - 1 then
    let dir := uniform_int_distribution (-1) 1 w
    let t := now dir.2
    let start_point : LightningSegment :=
      { x := max 1 (min (max_x - 1) (start_point.x + dir.1)),
        y := start_point.y + 1,
        creation_time := t.1 }
    let segments := segments ++ [start_point]
    let subfork_check := uniform_int_distribution 0 100 t.2
    let sub :=
      if subfork_check.1 < SUBFORK_CHANCE then
        addFork max_x max_y start_point segments subfork_check.2
      else (segments, subfork_check.2)
    addFork_loop max_x max_y fork_len (i + 1) start_point sub.1 sub.2
  else (segments, w)
termination_by ((max_y - 1 - start_point.y).toNat, 0)
decreasing_by
  all_goals simp [Prod.lex_def]
  all_goals omega
end

/-- The growth step of `update` (lines 69-88), run with the clock reading `current_time`. -/
def grow (b : LightningBolt) (current_time : Int) (w : World) : LightningBolt × World :=
  if b.is_growing = true ∧ current_time - b.last_growth_time > LIGHTNING_GROWTH_DELAY then
    let b := { b with last_growth_time := current_time }
    if h : b.segments = [] ∨ b.segments.length ≥ b.target_length then
      ({ b with is_growing := false }, w)
    else
      let last_segment := b.segments.getLast (fun e => h (Or.inl e))
      if last_segment.y ≥ b.max_y - 1 then
        ({ b with is_growing := false }, w)
      else
        let dir := uniform_int_distribution (-1) 1 w
        let next_x := max 1 (min (b.max_x - 1) (last_segment.x + dir.1))
        let b := { b with segments := b.segments ++
          [{ x := next_x, y := last_segment.y + 1, creation_time := current_time }] }
        let fork_check := uniform_int_distribution 0 100 dir.2
        if fork_check.1 < FORK_CHANCE then
          let f := addFork b.max_x b.max_y last_segment b.segments fork_check.2
          ({ b with segments := f.1 }, f.2)
        else (b, fork_check.2)
  else (b, w)

/-- The loop of lines 90-96: no segment is younger than `SEGMENT_LIFESPAN`. -/
def all_expired (segments : List LightningSegment) (current_time : Int) : Bool :=
  segments.all (fun seg => !decide (current_time - seg.creation_time < SEGMENT_LIFESPAN))

/-- Method `LightningBolt::update` (lines 67-100): the returned flag, the bolt afterwards and the
sources afterwards. -/
def update (b : LightningBolt) (w : World) : Bool × LightningBolt × World :=
  let t := now w
  let g := grow b t.1 t.2
  if g.1.is_growing = false ∧ all_expired g.1.segments t.1 = true then (false, g.1, g.2)
  else (true, g.1, g.2)

/-- One cursor-positioned character written by `draw` (line 120). -/
structure Glyph where
  color_code : String
  y : Int
  x : Int
  character : Char
deriving DecidableEq, Repr

/-- Value of `age.count() / SEGMENT_LIFESPAN.count()` (lines 105 and 107), a `double`. -/
def age_ratio (current_time : Int) (seg : LightningSegment) : Double :=
  (duration_sec (current_time - seg.creation_time)).div SEGMENT_LIFESPAN_count

/-- Body of the loop of `draw` (lines 105-121) for one segment: what is written, if anything.
The tests of lines 106, 110 and 113 are comparisons of `double`s. -/
def draw_segment (bright_color : String) (current_time : Int) (seg : LightningSegment) :
    Option Glyph :=
  if (duration_sec (current_time - seg.creation_time)).lt SEGMENT_LIFESPAN_count = true then
    if (age_ratio current_time seg).lt (double_of_frac 33 100) = true then
      some { color_code := bright_color, y := seg.y, x := seg.x, character := LIGHTNING_CHARS[2] }
    else if (age_ratio current_time seg).lt (double_of_frac 66 100) = true then
      some { color_code := bright_color, y := seg.y, x := seg.x, character := LIGHTNING_CHARS[1] }
    else
      some { color_code := "\x1b[90m", y := seg.y, x := seg.x, character := LIGHTNING_CHARS[0] }
  else none

/-- Method `LightningBolt::draw` (lines 102-123): the glyphs written, in order. -/
def draw (b : LightningBolt) (bright_color : String) (w : World) : List Glyph × World :=
  let t := now w
  (b.segments.filterMap (draw_segment bright_color t.1), t.2)

/-! ## Main loop (lines 216-278) -/

/-- The locals of `main` that live across frames, and the number of `thunderSound.play()` calls
made so far. -/
structure MainState where
  width : Int
  height : Int
  drops : List Int
  active_bolts : List LightningBolt
  drop_dist : Int × Int
  lightning_pos_dist : Int × Int
  lightning_chance : ℚ
  thunder_plays : Nat

/-- Set-up of lines 216-221 for the terminal size and spawn chance read at start-up. -/
def main_setup (width height : Int) (lightning_chance : ℚ) : MainState :=
  { width := width,
    height := height,
    drops := List.replicate width.toNat (-1),
    active_bolts := [],
    drop_dist := (0, width),
    lightning_pos_dist := (width.tdiv 4, (width * 3).tdiv 4),
    lightning_chance := lightning_chance,
    thunder_plays := 0 }

/-- Resize handling (lines 233-241).  `resized` is `none` when the flag is not set and
`some (w, h)` when it is set and `getTerminalSize` then reports `w` columns and `h` rows. -/
def handle_resize (resized : Option (Int × Int)) (s : MainState) : MainState :=
  match resized with
  | none => s
  | some (width, height) =>
    { s with width := width, height := height, active_bolts := [],
             drops := List.replicate width.toNat (-1) }

/-- Spawn policy (lines 244-249). -/
def spawn_step (s : MainState) (w : World) : MainState × World :=
  let chance_draw := uniform_real_distribution 0 100 w
  if chance_draw.1 < s.lightning_chance then
    if s.active_bolts.length < 3 then
      let pos := uniform_int_distribution s.lightning_pos_dist.1 s.lightning_pos_dist.2
        chance_draw.2
      let bolt := LightningBolt.LightningBolt pos.1 1 s.width s.height pos.2
      ({ s with thunder_plays := s.thunder_plays + 1,
                active_bolts := s.active_bolts ++ [bolt.1] }, bolt.2)
    else (s, chance_draw.2)
  else (s, chance_draw.2)

/-- Retain loop (lines 250-254): every bolt is updated in order, the live ones are kept. -/
def update_bolts : List LightningBolt → World → List LightningBolt × World
  | [], w => ([], w)
  | bolt :: rest, w =>
    let u := update bolt w
    let r := update_bolts rest u.2.2
    (if u.1 = true then u.2.1 :: r.1 else r.1, r.2)

/-- Rain spawning (lines 259-261): an empty slot draws from `drop_dist`. -/
def spawn_drops (drop_dist : Int × Int) : List Int → World → List Int × World
  | [], w => ([], w)
  | d :: rest, w =>
    if d = -1 then
      let c := uniform_int_distribution drop_dist.1 drop_dist.2 w
      let r := spawn_drops drop_dist rest c.2
      ((if c.1 < 2 then 1 else d) :: r.1, r.2)
    else
      let r := spawn_drops drop_dist rest w
      (d :: r.1, r.2)

/-- Rain falling (lines 268-273). -/
def advance_drops (height : Int) (drops : List Int) : List Int :=
  drops.map (fun d => if d ≠ -1 then (if d + 1 > height then -1 else d + 1) else d)

/-- Line 274: every active bolt is drawn in order. -/
def draw_bolts (bright_color : String) : List LightningBolt → World → List Glyph × World
  | [], w => ([], w)
  | bolt :: rest, w =>
    let d := draw bolt bright_color w
    let r := draw_bolts bright_color rest d.2
    (d.1 ++ r.1, r.2)

/-- Update phase of one frame (lines 244-254): spawn, then retain. -/
def update_phase (s : MainState) (w : World) : MainState × World :=
  let sp := spawn_step s w
  let u := update_bolts sp.1.active_bolts sp.2
  ({ sp.1 with active_bolts := u.1 }, u.2)

/-- One iteration of the main loop (lines 233-277); the lightning glyphs written are discarded,
the rain characters are not modelled. -/
def frame (bright_color : String) (resized : Option (Int × Int)) (s : MainState) (w : World) :
    MainState × World :=
  let s := handle_resize resized s
  let u := update_phase s w
  let sd := spawn_drops u.1.drop_dist u.1.drops u.2
  let s := { u.1 with drops := advance_drops u.1.height sd.1 }
  let d := draw_bolts bright_color s.active_bolts sd.2
  (s, d.2)

/-- The main loop run for one frame per element of `resized`, oldest first. -/
def run_frames (bright_color : String) :
    List (Option (Int × Int)) → MainState × World → MainState × World
  | [], sw => sw
  | r :: rest, sw =>
    let f := frame bright_color r sw.1 sw.2
    run_frames bright_color rest f

/-! ## Driving one bolt -/

/-- The bolt and sources after `n` consecutive `update` calls. -/
def updates : Nat → LightningBolt × World → LightningBolt × World
  | 0, bw => bw
  | n + 1, bw =>
    let p := updates n bw
    let u := update p.1 p.2
    (u.2.1, u.2.2)

/-- The bolt after one `update` call per element of `ws`, each call seeing its own generator state
and clock (other users of the generator and the clock may run in between). -/
def updates_with : List World → LightningBolt → LightningBolt
  | [], b => b
  | w :: ws, b => updates_with ws (update b w).2.1

/-! ## Notions used in the statements -/

/-- What is known of the position of a segment appended by a fork started at row `y0`. -/
def ForkSegment (max_x max_y y0 : Int) (s : LightningSegment) : Prop :=
  y0 < s.y ∧ s.y ≤ max_y - 1 ∧ ∃ z : Int, s.x = max 1 (min (max_x - 1) z)

/-- Outcome of a call that appended the list `l` to `segs` and consumed `j` clock readings of `w`:
the appended segments lie below row `y0` and are stamped with consumed readings. -/
def ForkOutcome (max_x max_y y0 : Int) (segs : List LightningSegment) (w : World)
    (r : List LightningSegment × World) (l : List LightningSegment) (j : Nat) : Prop :=
  r.1 = segs ++ l ∧ (∀ k, r.2.clock k = w.clock (k + j)) ∧
    ∀ s ∈ l, ForkSegment max_x max_y y0 s ∧ ∃ i, i < j ∧ s.creation_time = w.clock i

/-- The grid position of a segment lies inside the grid interior. -/
def InGrid (width height : Int) (s : LightningSegment) : Prop :=
  1 ≤ s.y ∧ s.y ≤ height - 1 ∧ 1 ≤ s.x ∧ s.x ≤ width - 1

/-- Clock reading taken by the `n`-th `update` call of a run (counting from 0). -/
def reading (n : Nat) (bw : LightningBolt × World) : Int := (updates n bw).2.clock 0

/-- Number of growth ticks among the first `n` `update` calls of a run: calls at which the time
elapsed since the last growth exceeds `LIGHTNING_GROWTH_DELAY`. -/
def growth_ticks : Nat → LightningBolt × World → Nat
  | 0, _ => 0
  | n + 1, bw =>
    growth_ticks n bw +
      (if reading n bw - (updates n bw).1.last_growth_time > LIGHTNING_GROWTH_DELAY then 1 else 0)

/-- Column and row of a segment. -/
def position (s : LightningSegment) : Int × Int := (s.x, s.y)

/-- Two bolts that agree in everything but the time stamps of their segments. -/
def SameShape (b1 b2 : LightningBolt) : Prop :=
  b1.segments.map position = b2.segments.map position ∧
    b1.last_growth_time = b2.last_growth_time ∧ b1.is_growing = b2.is_growing ∧
    b1.max_y = b2.max_y ∧ b1.max_x = b2.max_x ∧ b1.target_length = b2.target_length

/-- The segment pushed at line 81 when the trunk grows from `last` at clock reading `t`. -/
def trunk_segment (b : LightningBolt) (last : LightningSegment) (t : Int) (w : World) :
    LightningSegment :=
  { x := max 1 (min (b.max_x - 1) (last.x + (uniform_int_distribution (-1) 1 w).1)),
    y := last.y + 1,
    creation_time := t }

/-- The segment pushed by the first iteration of the loop of `addFork` when the loop is entered
from `start_point` with the sources `w`. -/
def fork_first (max_x : Int) (start_point : LightningSegment) (w : World) : LightningSegment :=
  { x := max 1 (min (max_x - 1) (start_point.x + (uniform_int_distribution (-1) 1 w).1)),
    y := start_point.y + 1,
    creation_time := (now (uniform_int_distribution (-1) 1 w).2).1 }

/-- The fork check of a growth step entered with the sources `w`: the value drawn and the sources
afterwards (lines 78-83). -/
def fork_check (w : World) : Int × World :=
  uniform_int_distribution 0 100 (uniform_int_distribution (-1) 1 w).2

/-- The segment a growth step pushes at line 81, if it pushes one: the first segment the step
appends. -/
def trunk_appended (b : LightningBolt) (t : Int) (w : World) : List LightningSegment :=
  ((grow b t w).1.segments.drop b.segments.length).take 1

/-- The segments the `addFork` call of a growth step appends (forks and sub-forks): what the step
appends after its first segment. -/
def fork_appended (b : LightningBolt) (t : Int) (w : World) : List LightningSegment :=
  (grow b t w).1.segments.drop (b.segments.length + 1)

/-- The segments pushed at line 81 during the first `n` `update` calls of a run, in order. -/
def trunk_added : Nat → LightningBolt × World → List LightningSegment
  | 0, _ => []
  | n + 1, bw =>
    trunk_added n bw ++
      trunk_appended (updates n bw).1 (reading n bw) (now (updates n bw).2).2

/-- The segments appended by `addFork` during the first `n` `update` calls of a run, in order. -/
def fork_added : Nat → LightningBolt × World → List LightningSegment
  | 0, _ => []
  | n + 1, bw =>
    fork_added n bw ++
      fork_appended (updates n bw).1 (reading n bw) (now (updates n bw).2).2

/-- Record of one recursive call `addFork(start_point, generator)` of line 138: the row the calling
`addFork` started at, the row the sub-fork starts at, and the nesting depth of the sub-fork (the
call made by `update` has depth 0). -/
structure ForkCall where
  parent_row : Int
  start_row : Int
  depth : Nat
deriving DecidableEq, Repr

mutual
/-- The method `addFork` run at nesting depth `depth`, returning besides its result the recursive
calls made below it, in call order. -/
def addFork_traced (max_x max_y : Int) (depth : Nat) (start_point : LightningSegment)
    (segments : List LightningSegment) (w : World) :
    (List LightningSegment × World) × List ForkCall :=
  let len := len_dist max_y w
  addFork_loop_traced max_x max_y depth start_point.y len.1 0 start_point segments len.2
termination_by ((max_y - 1 - start_point.y).toNat, 1)
decreasing_by
  all_goals simp [Prod.lex_def]
/-- The loop of `addFork` inside a call of nesting depth `depth` that started at row `call_row`,
returning besides its result the recursive calls made. -/
def addFork_loop_traced (max_x max_y : Int) (depth : Nat) (call_row : Int) (fork_len i : Int)
    (start_point : LightningSegment) (segments : List LightningSegment) (w : World) :
    (List LightningSegment × World) × List ForkCall :=
  if i < fork_len ∧ start_point.y < max_y - 1 then
    let dir := uniform_int_distribution (-1) 1 w
    let t := now dir.2
    let start_point : LightningSegment :=
      { x := max 1 (min (max_x - 1) (start_point.x + dir.1)),
        y := start_point.y + 1,
        creation_time := t.1 }
    let segments := segments ++ [start_point]
    let subfork_check := uniform_int_distribution 0 100 t.2
    let sub :=
      if subfork_check.1 < SUBFORK_CHANCE then
        let r := addFork_traced max_x max_y (depth + 1) start_point segments subfork_check.2
        (r.1, { parent_row := call_row, start_row := start_point.y, depth := depth + 1 } :: r.2)
      else ((segments, subfork_check.2), [])
    let r := addFork_loop_traced max_x max_y depth call_row fork_len (i + 1) start_point
      sub.1.1 sub.1.2
    (r.1, sub.2 ++ r.2)
  else ((segments, w), [])
termination_by ((max_y - 1 - start_point.y).toNat, 0)
decreasing_by
  all_goals simp [Prod.lex_def]
  all_goals omega
end

/-- Resize handling (lines 233-241) with the flag `resized` explicit: the flag afterwards and the
locals afterwards; `terminal` is what `getTerminalSize` reports. -/
def resize_block (resized : Bool) (terminal : Int × Int) (s : MainState) : Bool × MainState :=
  if resized then
    (false,
      { s with width := terminal.1, height := terminal.2, active_bolts := [],
               drops := List.replicate terminal.1.toNat (-1) })
  else (resized, s)

/-- The values `fork_check(generator)` and `subfork_check(generator)` take, one per residue of the
raw generator output: each is drawn equally often. -/
def check_values : List Int :=
  (List.range 101).map
    (fun raw => (uniform_int_distribution 0 100 { generator := fun _ => raw, clock := fun _ => 0 }).1)

/-- The age ratio in the words of the specification: `age / lifespan` as an exact ratio.  The
code computes `age_ratio` instead. -/
def spec_age_ratio (current_time : Int) (seg : LightningSegment) : ℚ :=
  ((current_time - seg.creation_time : Int) : ℚ) / (SEGMENT_LIFESPAN : ℚ)

/-! ## Concrete inputs -/

/-- A generator whose raw outputs are all `50` (no fork check succeeds) and a clock advancing
6 ms per reading. -/
def world_calm : World := { generator := fun _ => 50, clock := fun n => 6000000 * n }

/-- A generator counting upwards and a clock advancing 6 ms per reading. -/
def world_count : World := { generator := fun n => n, clock := fun n => 6000000 * n }

/-- A generator counting upwards and a clock that reads `t` at every call. -/
def world_at (t : Int) : World := { generator := fun n => n, clock := fun _ => t }

/-- A decaying bolt with two segments. -/
def bolt_decaying : LightningBolt :=
  { segments := [⟨40, 1, 0⟩, ⟨41, 2, 6000000⟩], last_growth_time := 12000000,
    is_growing := false, max_y := 24, max_x := 80, target_length := 2 }

/-- The bolt of scenario 1: started at (40, 1) on an 80 x 24 grid, target length 10. -/
def bolt_scenario : LightningBolt :=
  { segments := [⟨40, 1, 0⟩], last_growth_time := 0, is_growing := true,
    max_y := 24, max_x := 80, target_length := 10 }

/-- A generator whose raw outputs are 0, 40, 80, ... and a clock advancing 6 ms per reading. -/
def world_spawn : World := { generator := fun n => 40 * n, clock := fun n => 6000000 * n }

/-- A growing bolt with one segment on an 8 x 6 grid. -/
def bolt_small : LightningBolt :=
  { segments := [⟨3, 1, 0⟩], last_growth_time := 0, is_growing := true,
    max_y := 6, max_x := 8, target_length := 3 }

/-- A generator whose raw outputs are 1, 5, 0, 1, 50, 50, ... (drift 0, fork check 5, fork length
1, drift 0, sub-fork check 50) and a clock reading 6 ms, 12 ms, ... -/
def world_fork : World :=
  { generator := fun n => [1, 5, 0, 1].getD n 50, clock := fun n => 6000000 * (n + 1) }

/-- A growing bolt on an 80 x 24 grid whose last segment is the tip of a fork. -/
def bolt_forked : LightningBolt :=
  { segments := [⟨40, 1, 0⟩, ⟨40, 2, 6000000⟩, ⟨41, 2, 12000000⟩, ⟨42, 3, 18000000⟩],
    last_growth_time := 6000000, is_growing := true, max_y := 24, max_x := 80,
    target_length := 12 }

/-- A state of the main loop with two active bolts and some falling drops. -/
def main_busy : MainState :=
  { main_setup 4 24 100 with active_bolts := [bolt_decaying, bolt_scenario], drops := [3, -1, 7, 1] }

/-! ## Lemmas on `addFork` -/

theorem ForkSegment.mono {max_x max_y y0 y1 : Int} {s : LightningSegment}
    (h : ForkSegment max_x max_y y1 s) (hy : y0 ≤ y1) : ForkSegment max_x max_y y0 s :=
  ⟨lt_of_le_of_lt hy h.1, h.2.1, h.2.2⟩

theorem addFork_outcome_aux (max_x max_y : Int) (n : Nat) :
    (∀ (fork_len i : Int) (sp : LightningSegment) (segs : List LightningSegment) (w : World),
      (max_y - 1 - sp.y).toNat ≤ n →
      ∃ l j, ForkOutcome max_x max_y sp.y segs w
        (addFork_loop max_x max_y fork_len i sp segs w) l j) ∧
    (∀ (sp : LightningSegment) (segs : List LightningSegment) (w : World),
      (max_y - 1 - sp.y).toNat ≤ n →
      ∃ l j, ForkOutcome max_x max_y sp.y segs w (addFork max_x max_y sp segs w) l j) := by
  induction n with
  | zero =>
    refine ⟨?_, fun sp segs w hn => ?_⟩
    · intro fork_len i sp segs w hn
      rw [addFork_loop]
      have hc : ¬ (i < fork_len ∧ sp.y < max_y - 1) := by omega
      rw [if_neg hc]
      exact ⟨[], 0, by simp, by simp, by simp⟩
    · rw [addFork, addFork_loop]
      have hc : ¬ ((0 : Int) < (len_dist max_y w).1 ∧ sp.y < max_y - 1) := by omega
      rw [if_neg hc]
      exact ⟨[], 0, by simp, by simp [len_dist, uniform_int_distribution], by simp⟩
  | succ n ih =>
    have hloop : ∀ (fork_len i : Int) (sp : LightningSegment) (segs : List LightningSegment)
        (w : World), (max_y - 1 - sp.y).toNat ≤ n + 1 →
        ∃ l j, ForkOutcome max_x max_y sp.y segs w
          (addFork_loop max_x max_y fork_len i sp segs w) l j := by
      intro fork_len i sp segs w hn
      rw [addFork_loop]
      by_cases hc : i < fork_len ∧ sp.y < max_y - 1
      · rw [if_pos hc]
        dsimp only
        generalize hsp : (⟨max 1 (min (max_x - 1) (sp.x + (uniform_int_distribution (-1) 1 w).1)),
          sp.y + 1, (now (uniform_int_distribution (-1) 1 w).2).1⟩ : LightningSegment) = sp1
        have hy1 : sp1.y = sp.y + 1 := by rw [← hsp]
        have hx1 : sp1.x = max 1 (min (max_x - 1) (sp.x + (uniform_int_distribution (-1) 1 w).1)) := by
          rw [← hsp]
        have ht1 : sp1.creation_time = w.clock 0 := by rw [← hsp]; rfl
        generalize hw1 : (uniform_int_distribution 0 100
          (now (uniform_int_distribution (-1) 1 w).2).2) = c1
        have hc1 : ∀ k, c1.2.clock k = w.clock (k + 1) := by
          intro k; rw [← hw1]; rfl
        have hm1 : (max_y - 1 - sp1.y).toNat ≤ n := by rw [hy1]; omega
        obtain ⟨l1, j1, e1, k1, m1⟩ : ∃ l j, ForkOutcome max_x max_y sp1.y (segs ++ [sp1]) c1.2
            (if c1.1 < SUBFORK_CHANCE then addFork max_x max_y sp1 (segs ++ [sp1]) c1.2
              else (segs ++ [sp1], c1.2)) l j := by
          split_ifs
          · exact ih.2 _ _ _ hm1
          · exact ⟨[], 0, by simp, by simp, by simp⟩
        obtain ⟨l2, j2, e2, k2, m2⟩ := ih.1 fork_len (i + 1) sp1 _ _ hm1
        refine ⟨sp1 :: (l1 ++ l2), 1 + j1 + j2, ?_, ?_, ?_⟩
        · rw [e2, e1]; simp
        · intro k
          rw [k2, k1, hc1]
          congr 1
          omega
        · intro s hs
          rcases List.mem_cons.1 hs with h | h
          · subst h
            exact ⟨⟨by omega, by omega, _, hx1⟩, 0, by omega, ht1⟩
          · rcases List.mem_append.1 h with h | h
            · obtain ⟨f, i0, hi0, et⟩ := m1 s h
              exact ⟨f.mono (by omega), i0 + 1, by omega, by rw [et, hc1]⟩
            · obtain ⟨f, i0, hi0, et⟩ := m2 s h
              refine ⟨f.mono (by omega), i0 + j1 + 1, by omega, ?_⟩
              rw [et, k1, hc1]
      · rw [if_neg hc]
        exact ⟨[], 0, by simp, by simp, by simp⟩
    exact ⟨hloop, fun sp segs w hn => by rw [addFork]; exact hloop _ _ _ _ _ hn⟩

/-- `addFork` appends to the segment list; each appended segment lies below the start row, has a
clamped column and is stamped with a clock reading consumed by the call. -/
theorem addFork_outcome (max_x max_y : Int) (sp : LightningSegment)
    (segs : List LightningSegment) (w : World) :
    ∃ l j, ForkOutcome max_x max_y sp.y segs w (addFork max_x max_y sp segs w) l j :=
  (addFork_outcome_aux max_x max_y _).2 sp segs w le_rfl

/-- Every segment in the list after `addFork` was there before or was appended by the fork. -/
theorem addFork_mem (max_x max_y : Int) (sp : LightningSegment) (segs : List LightningSegment)
    (w : World) (s : LightningSegment) (hs : s ∈ (addFork max_x max_y sp segs w).1) :
    s ∈ segs ∨ ForkSegment max_x max_y sp.y s := by
  obtain ⟨l, j, e, _, m⟩ := addFork_outcome max_x max_y sp segs w
  rw [e] at hs
  rcases List.mem_append.1 hs with h | h
  · exact Or.inl h
  · exact Or.inr (m s h).1

/-! ## Lemmas on `grow` and `update` -/

theorem grow_max_x (b : LightningBolt) (t : Int) (w : World) :
    (grow b t w).1.max_x = b.max_x := by
  unfold grow
  dsimp only
  split_ifs <;> rfl

theorem grow_max_y (b : LightningBolt) (t : Int) (w : World) :
    (grow b t w).1.max_y = b.max_y := by
  unfold grow
  dsimp only
  split_ifs <;> rfl

theorem grow_target_length (b : LightningBolt) (t : Int) (w : World) :
    (grow b t w).1.target_length = b.target_length := by
  unfold grow
  dsimp only
  split_ifs <;> rfl

/-- Every segment after the growth step was there before or was appended below a segment that
was there before. -/
theorem grow_mem (b : LightningBolt) (t : Int) (w : World) (s : LightningSegment)
    (hs : s ∈ (grow b t w).1.segments) :
    s ∈ b.segments ∨ ∃ last ∈ b.segments, ForkSegment b.max_x b.max_y last.y s := by
  unfold grow at hs
  dsimp only at hs
  split_ifs at hs with h1 h2 h3 h4
  · exact Or.inl hs
  · exact Or.inl hs
  · simp only at hs
    have hlast := List.getLast_mem (l := b.segments) (fun e => h2 (Or.inl e))
    rcases addFork_mem _ _ _ _ _ _ hs with h5 | h5
    · rcases List.mem_append.1 h5 with h6 | h6
      · exact Or.inl h6
      · right
        rw [List.mem_singleton] at h6
        subst h6
        exact ⟨_, hlast, by simp, by simp only; simp only [ge_iff_le, not_le] at h3; omega,
          ⟨_, rfl⟩⟩
    · exact Or.inr ⟨_, hlast, h5⟩
  · simp only at hs
    have hlast := List.getLast_mem (l := b.segments) (fun e => h2 (Or.inl e))
    rcases List.mem_append.1 hs with h6 | h6
    · exact Or.inl h6
    · right
      rw [List.mem_singleton] at h6
      subst h6
      exact ⟨_, hlast, by simp, by simp only; simp only [ge_iff_le, not_le] at h3; omega,
        ⟨_, rfl⟩⟩
  · exact Or.inl hs

theorem update_bolt_eq (b : LightningBolt) (w : World) :
    (update b w).2.1 = (grow b (w.clock 0) (now w).2).1 := by
  unfold update
  dsimp only
  split_ifs <;> rfl

theorem update_world_eq (b : LightningBolt) (w : World) :
    (update b w).2.2 = (grow b (w.clock 0) (now w).2).2 := by
  unfold update
  dsimp only
  split_ifs <;> rfl

theorem ForkSegment.inGrid {max_x max_y y0 : Int} {s : LightningSegment}
    (h : ForkSegment max_x max_y y0 s) (hx : 2 ≤ max_x) (hy : 0 ≤ y0) : InGrid max_x max_y s := by
  obtain ⟨h1, h2, z, hz⟩ := h
  refine ⟨by omega, h2, ?_, ?_⟩
  · rw [hz]; exact le_max_left _ _
  · rw [hz]; exact max_le (by omega) (min_le_left _ _)

/-- The growth step keeps every segment inside the grid interior. -/
theorem update_inGrid (b : LightningBolt) (w : World) (hx : 2 ≤ b.max_x)
    (h : ∀ s ∈ b.segments, InGrid b.max_x b.max_y s) :
    ∀ s ∈ (update b w).2.1.segments, InGrid b.max_x b.max_y s := by
  intro s hs
  rw [update_bolt_eq] at hs
  rcases grow_mem _ _ _ _ hs with h1 | ⟨last, hl, h1⟩
  · exact h s h1
  · exact h1.inGrid hx (by have := (h last hl).1; omega)

theorem updates_with_inGrid (ws : List World) (b : LightningBolt) (hx : 2 ≤ b.max_x)
    (h : ∀ s ∈ b.segments, InGrid b.max_x b.max_y s) :
    ∀ s ∈ (updates_with ws b).segments, InGrid b.max_x b.max_y s := by
  induction ws generalizing b with
  | nil => exact h
  | cons w ws ih =>
    have e1 : (update b w).2.1.max_x = b.max_x := by rw [update_bolt_eq, grow_max_x]
    have e2 : (update b w).2.1.max_y = b.max_y := by rw [update_bolt_eq, grow_max_y]
    have := ih (update b w).2.1 (by rw [e1]; exact hx)
      (by rw [e1, e2]; exact update_inGrid b w hx h)
    rw [e1, e2] at this
    exact this

/-! ## C1 -/

/-- C1, as stated, fails: the constructor stores the start position unclamped, so a bolt started at
column 0, row 0 of an 80 x 24 grid holds a segment outside `[1, 79] x [1, 23]`. -/
theorem C1_unclamped_start :
    ¬ ∀ s ∈ (LightningBolt.LightningBolt 0 0 80 24 world_calm).1.segments,
        1 ≤ s.y ∧ s.y ≤ 24 - 1 ∧ 1 ≤ s.x ∧ s.x ≤ 80 - 1 := by
  simp [LightningBolt.LightningBolt]

/-- C1, amended: for a bolt whose start column lies in `[1, width-1]` and start row in
`[1, height-1]`, after any sequence of `update` calls (each with any generator state and clock)
every segment of the bolt, the initial one and those appended by `update` and `addFork`, has row in
`[1, height-1]` and column in `[1, width-1]`. -/
theorem C1_segments_in_grid (start_x start_y width height : Int) (w : World) (ws : List World)
    (hx : 1 ≤ start_x ∧ start_x ≤ width - 1) (hy : 1 ≤ start_y ∧ start_y ≤ height - 1) :
    ∀ s ∈ (updates_with ws (LightningBolt.LightningBolt start_x start_y width height w).1).segments,
      1 ≤ s.y ∧ s.y ≤ height - 1 ∧ 1 ≤ s.x ∧ s.x ≤ width - 1 := by
  have h := updates_with_inGrid ws (LightningBolt.LightningBolt start_x start_y width height w).1
    (by simp only [LightningBolt.LightningBolt]; omega)
    (by
      intro s hs
      simp only [LightningBolt.LightningBolt, List.mem_singleton] at hs
      subst hs
      exact ⟨hy.1, hy.2, hx.1, hx.2⟩)
  exact h

/-- C1 witness: a bolt started at (40, 1) on an 80 x 24 grid, updated at 10, 20 and 30 ms. -/
theorem C1_segments_in_grid_witness :
    ((1 : Int) ≤ 40 ∧ (40 : Int) ≤ 80 - 1) ∧ ((1 : Int) ≤ 1 ∧ (1 : Int) ≤ 24 - 1) ∧
      ∀ s ∈ (updates_with [world_at 10000000, world_at 20000000, world_at 30000000]
          (LightningBolt.LightningBolt 40 1 80 24 world_calm).1).segments,
        1 ≤ s.y ∧ s.y ≤ 24 - 1 ∧ 1 ≤ s.x ∧ s.x ≤ 80 - 1 :=
  ⟨by decide, by decide,
    C1_segments_in_grid 40 1 80 24 world_calm
      [world_at 10000000, world_at 20000000, world_at 30000000] (by decide) (by decide)⟩

/-! ## C2 -/

theorem all_expired_iff (segs : List LightningSegment) (t : Int) :
    all_expired segs t = true ↔ ∀ seg ∈ segs, SEGMENT_LIFESPAN ≤ t - seg.creation_time := by
  simp [all_expired]

/-- C2: `update` returns false exactly when, after the growth step of that call, the bolt is not
growing and every stored segment has age `now - creation_time` of at least 0.9 s (900000000 ticks),
where `now` is the clock reading of the call; the bolt ranges over all states, with or without
segments. -/
theorem C2_not_alive_iff (b : LightningBolt) (w : World) :
    (update b w).1 = false ↔
      ((update b w).2.1.is_growing = false ∧
        ∀ seg ∈ (update b w).2.1.segments, 900000000 ≤ w.clock 0 - seg.creation_time) := by
  rw [update_bolt_eq]
  unfold update
  dsimp only
  have e : (now w).1 = w.clock 0 := rfl
  split_ifs with h
  · rw [all_expired_iff, e] at h
    simpa [SEGMENT_LIFESPAN] using h
  · rw [all_expired_iff, e] at h
    simpa [SEGMENT_LIFESPAN] using h

/-! ## C3 -/

theorem grow_not_growing (b : LightningBolt) (t : Int) (w : World)
    (h : b.is_growing = false) : grow b t w = (b, w) := by
  unfold grow
  simp [h]

theorem update_not_growing (b : LightningBolt) (w : World) (h : b.is_growing = false) :
    (update b w).2.1 = b := by
  rw [update_bolt_eq, grow_not_growing b _ _ h]

/-- C3: once a bolt is not growing, `update` (with any clock reading and any generator state,
any number of times) leaves `is_growing` false and the segment list unchanged. -/
theorem C3_decaying_is_final (b : LightningBolt) (ws : List World) (h : b.is_growing = false) :
    (updates_with ws b).is_growing = false ∧ (updates_with ws b).segments = b.segments := by
  induction ws with
  | nil => exact ⟨h, rfl⟩
  | cons w ws ih =>
    simp only [updates_with]
    rw [update_not_growing b w h]
    exact ih

/-- C3 witness: two further updates of a decaying bolt. -/
theorem C3_decaying_is_final_witness :
    bolt_decaying.is_growing = false ∧
      (updates_with [world_at 20000000, world_at 30000000] bolt_decaying).is_growing = false ∧
      (updates_with [world_at 20000000, world_at 30000000] bolt_decaying).segments =
        bolt_decaying.segments :=
  ⟨rfl, C3_decaying_is_final bolt_decaying [world_at 20000000, world_at 30000000] rfl⟩

/-! ## Lemmas on the main loop -/

theorem update_bolts_length_le (bolts : List LightningBolt) (w : World) :
    (update_bolts bolts w).1.length ≤ bolts.length := by
  induction bolts generalizing w with
  | nil => simp [update_bolts]
  | cons b rest ih =>
    simp only [update_bolts]
    split_ifs
    · simpa using ih _
    · exact le_trans (ih _) (by simp)

theorem spawn_step_length_le (s : MainState) (w : World) (h : s.active_bolts.length ≤ 3) :
    (spawn_step s w).1.active_bolts.length ≤ 3 := by
  unfold spawn_step
  dsimp only
  split_ifs with h1 h2
  · simp only [List.length_append, List.length_singleton]
    omega
  · exact h
  · exact h

theorem handle_resize_length_le (r : Option (Int × Int)) (s : MainState)
    (h : s.active_bolts.length ≤ 3) : (handle_resize r s).active_bolts.length ≤ 3 := by
  cases r with
  | none => exact h
  | some p => simp [handle_resize]

theorem frame_active_bolts (bright_color : String) (r : Option (Int × Int)) (s : MainState)
    (w : World) :
    (frame bright_color r s w).1.active_bolts =
      (update_bolts (spawn_step (handle_resize r s) w).1.active_bolts
        (spawn_step (handle_resize r s) w).2).1 := rfl

theorem frame_length_le (bright_color : String) (r : Option (Int × Int)) (s : MainState)
    (w : World) (h : s.active_bolts.length ≤ 3) :
    (frame bright_color r s w).1.active_bolts.length ≤ 3 := by
  rw [frame_active_bolts]
  exact le_trans (update_bolts_length_le _ _)
    (spawn_step_length_le _ _ (handle_resize_length_le r s h))

theorem run_frames_length_le (bright_color : String) (rs : List (Option (Int × Int)))
    (sw : MainState × World) (h : sw.1.active_bolts.length ≤ 3) :
    (run_frames bright_color rs sw).1.active_bolts.length ≤ 3 := by
  induction rs generalizing sw with
  | nil => exact h
  | cons r rest ih =>
    simp only [run_frames]
    exact ih _ (frame_length_le bright_color r sw.1 sw.2 h)

/-- The spawn draw is never negative. -/
theorem spawn_draw_nonneg (w : World) : 0 ≤ (uniform_real_distribution 0 100 w).1 := by
  unfold uniform_real_distribution
  positivity

/-- The spawn draw is below 100. -/
theorem spawn_draw_lt (w : World) : (uniform_real_distribution 0 100 w).1 < 100 := by
  unfold uniform_real_distribution
  have h : ((w.generator 0 % 4294967296 : Nat) : ℚ) < 4294967296 := by
    exact_mod_cast Nat.mod_lt _ (by norm_num)
  have h2 : ((w.generator 0 % 4294967296 : Nat) : ℚ) / 4294967296 < 1 := by
    rw [div_lt_one (by norm_num)]
    exact h
  simp only [zero_add, sub_zero]
  linarith

theorem spawn_step_chance_zero (s : MainState) (w : World) (hc : s.lightning_chance = 0) :
    (spawn_step s w).1 = s := by
  unfold spawn_step
  dsimp only
  rw [hc, if_neg (not_lt.2 (spawn_draw_nonneg w))]

theorem frame_chance_zero (bright_color : String) (r : Option (Int × Int)) (s : MainState)
    (w : World) (hc : s.lightning_chance = 0) (he : s.active_bolts = []) :
    (frame bright_color r s w).1.lightning_chance = 0 ∧
      (frame bright_color r s w).1.active_bolts = [] ∧
      (frame bright_color r s w).1.thunder_plays = s.thunder_plays := by
  have h1 : (handle_resize r s).lightning_chance = 0 := by
    cases r <;> simpa [handle_resize] using hc
  have h2 : (handle_resize r s).active_bolts = [] := by
    cases r <;> simp [handle_resize, he]
  have h3 : (handle_resize r s).thunder_plays = s.thunder_plays := by
    cases r <;> simp [handle_resize]
  have h4 := spawn_step_chance_zero (handle_resize r s) w h1
  refine ⟨?_, ?_, ?_⟩
  · show (spawn_step (handle_resize r s) w).1.lightning_chance = 0
    rw [h4, h1]
  · rw [frame_active_bolts, h4, h2]
    rfl
  · show (spawn_step (handle_resize r s) w).1.thunder_plays = s.thunder_plays
    rw [h4, h3]

/-! ## C5 -/

/-- C5: starting from at most 3 active bolts, for every spawn chance, every generator state and
every sequence of frames (with or without resize events), the number of active bolts is at most 3
after the retain step of every frame and after the spawn step of the frame that follows. -/
theorem C5_concurrency_cap (bright_color : String) (rs : List (Option (Int × Int)))
    (r : Option (Int × Int)) (s : MainState) (w : World) (h : s.active_bolts.length ≤ 3) :
    (run_frames bright_color rs (s, w)).1.active_bolts.length ≤ 3 ∧
      (spawn_step (handle_resize r (run_frames bright_color rs (s, w)).1)
        (run_frames bright_color rs (s, w)).2).1.active_bolts.length ≤ 3 := by
  have h1 := run_frames_length_le bright_color rs (s, w) h
  exact ⟨h1, spawn_step_length_le _ _ (handle_resize_length_le r _ h1)⟩

/-- C5 witness: an 80 x 24 terminal with spawn chance 100, four frames and then a spawn step. -/
theorem C5_concurrency_cap_witness :
    (main_setup 80 24 100).active_bolts.length ≤ 3 ∧
      (run_frames "" [none, none, none, none]
        (main_setup 80 24 100, world_count)).1.active_bolts.length ≤ 3 ∧
      (spawn_step (handle_resize none (run_frames "" [none, none, none, none]
          (main_setup 80 24 100, world_count)).1)
        (run_frames "" [none, none, none, none]
          (main_setup 80 24 100, world_count)).2).1.active_bolts.length ≤ 3 :=
  ⟨by decide,
    C5_concurrency_cap "" [none, none, none, none] none (main_setup 80 24 100) world_count
      (by decide)⟩

/-! ## C6 -/

/-- C6: with spawn chance 0 and no active bolt at the start, after any number of frames (any
generator state, with or without resize events) there is still no active bolt and
`thunderSound.play()` has not been called. -/
theorem C6_chance_zero_never_spawns (bright_color : String) (rs : List (Option (Int × Int)))
    (s : MainState) (w : World) (hc : s.lightning_chance = 0) (he : s.active_bolts = []) :
    (run_frames bright_color rs (s, w)).1.active_bolts = [] ∧
      (run_frames bright_color rs (s, w)).1.thunder_plays = s.thunder_plays := by
  induction rs generalizing s w with
  | nil => exact ⟨he, rfl⟩
  | cons r rest ih =>
    simp only [run_frames]
    obtain ⟨h1, h2, h3⟩ := frame_chance_zero bright_color r s w hc he
    have := ih (frame bright_color r s w).1 (frame bright_color r s w).2 h1 h2
    rw [h3] at this
    exact this

/-- C6 witness: an 80 x 24 terminal set up with spawn chance 0, run for three frames. -/
theorem C6_chance_zero_never_spawns_witness :
    (main_setup 80 24 0).lightning_chance = 0 ∧ (main_setup 80 24 0).active_bolts = [] ∧
      (run_frames "" [none, none, none] (main_setup 80 24 0, world_calm)).1.active_bolts = [] ∧
      (run_frames "" [none, none, none] (main_setup 80 24 0, world_calm)).1.thunder_plays =
        (main_setup 80 24 0).thunder_plays :=
  ⟨rfl, rfl,
    C6_chance_zero_never_spawns "" [none, none, none] (main_setup 80 24 0) world_calm rfl rfl⟩

/-! ## Lemmas on a run of `update` calls -/

/-- The growth step appends to the segment list and consumes clock readings; each appended
segment is stamped with `t` or with a consumed reading. -/
theorem grow_outcome (b : LightningBolt) (t : Int) (w : World) :
    ∃ l j, (grow b t w).1.segments = b.segments ++ l ∧
      (∀ k, (grow b t w).2.clock k = w.clock (k + j)) ∧
      ∀ s ∈ l, s.creation_time = t ∨ ∃ i, i < j ∧ s.creation_time = w.clock i := by
  unfold grow
  dsimp only
  split_ifs with h1 h2 h3 h4
  · exact ⟨[], 0, by simp, by simp, by simp⟩
  · exact ⟨[], 0, by simp, by simp, by simp⟩
  · obtain ⟨l, j, e, k, m⟩ := addFork_outcome b.max_x b.max_y
      (b.segments.getLast (fun e => h2 (Or.inl e)))
      (b.segments ++ [⟨max 1 (min (b.max_x - 1) ((b.segments.getLast
        (fun e => h2 (Or.inl e))).x + (uniform_int_distribution (-1) 1 w).1)),
        (b.segments.getLast (fun e => h2 (Or.inl e))).y + 1, t⟩])
      (uniform_int_distribution 0 100 (uniform_int_distribution (-1) 1 w).2).2
    refine ⟨?l, j, ?_, k, ?_⟩
    rotate_left
    · dsimp only
      rw [e]
      exact List.append_assoc _ _ _
    · intro s hs
      rcases List.mem_cons.1 hs with h | h
      · left; rw [h]
      · right; exact (m s h).2
  · exact ⟨[_], 0, rfl, by intro k; rfl, by simp⟩
  · exact ⟨[], 0, by simp, by simp, by simp⟩

/-- A growth step that is not due leaves the bolt and the sources as they are. -/
theorem grow_not_due (b : LightningBolt) (t : Int) (w : World)
    (h : ¬ t - b.last_growth_time > LIGHTNING_GROWTH_DELAY) : grow b t w = (b, w) := by
  unfold grow
  rw [if_neg (fun h1 => h h1.2)]

/-- A due growth step after which the bolt still grows found at least one and fewer than
`target_length` segments, and appended at least one. -/
theorem grow_due_still_growing (b : LightningBolt) (t : Int) (w : World)
    (hg : b.is_growing = true) (hd : t - b.last_growth_time > LIGHTNING_GROWTH_DELAY)
    (h : (grow b t w).1.is_growing = true) :
    1 ≤ b.segments.length ∧ b.segments.length < b.target_length ∧
      b.segments.length + 1 ≤ (grow b t w).1.segments.length := by
  unfold grow at h ⊢
  dsimp only at h ⊢
  rw [if_pos ⟨hg, hd⟩] at h ⊢
  split_ifs at h ⊢ with h2 h3 h4
  · have h5 : b.segments ≠ [] := fun e => h2 (Or.inl e)
    have h6 := List.length_pos.2 h5
    obtain ⟨l, j, e, -, -⟩ := addFork_outcome b.max_x b.max_y
      (b.segments.getLast (fun e => h2 (Or.inl e)))
      (b.segments ++ [⟨max 1 (min (b.max_x - 1) ((b.segments.getLast
        (fun e => h2 (Or.inl e))).x + (uniform_int_distribution (-1) 1 w).1)),
        (b.segments.getLast (fun e => h2 (Or.inl e))).y + 1, t⟩])
      (uniform_int_distribution 0 100 (uniform_int_distribution (-1) 1 w).2).2
    dsimp only
    rw [e]
    simp only [List.length_append, List.length_singleton]
    have h7 : ¬ b.segments.length ≥ b.target_length := fun e => h2 (Or.inr e)
    omega
  · have h5 : b.segments ≠ [] := fun e => h2 (Or.inl e)
    have h6 := List.length_pos.2 h5
    have h7 : ¬ b.segments.length ≥ b.target_length := fun e => h2 (Or.inr e)
    simp only [List.length_append, List.length_singleton]
    omega

/-- The growth step never turns a decaying bolt into a growing one. -/
theorem grow_still_growing (b : LightningBolt) (t : Int) (w : World)
    (h : (grow b t w).1.is_growing = true) : b.is_growing = true := by
  by_contra hb
  rw [grow_not_growing b t w (by simpa using hb)] at h
  exact hb h

theorem updates_succ_bolt (n : Nat) (bw : LightningBolt × World) :
    (updates (n + 1) bw).1 =
      (grow (updates n bw).1 (reading n bw) (now (updates n bw).2).2).1 := by
  simp only [updates, reading]
  rw [update_bolt_eq]

theorem updates_succ_world (n : Nat) (bw : LightningBolt × World) :
    (updates (n + 1) bw).2 =
      (grow (updates n bw).1 (reading n bw) (now (updates n bw).2).2).2 := by
  simp only [updates, reading]
  rw [update_world_eq]

theorem updates_target_length (n : Nat) (bw : LightningBolt × World) :
    (updates n bw).1.target_length = bw.1.target_length := by
  induction n with
  | zero => rfl
  | succ n ih => rw [updates_succ_bolt, grow_target_length, ih]

/-- While the bolt grows, the growth ticks so far are fewer than the target length and, once
there has been one, fewer than the segments held. -/
theorem growth_ticks_lt (bw : LightningBolt × World) (hL : 1 ≤ bw.1.target_length) (n : Nat)
    (h : (updates n bw).1.is_growing = true) :
    growth_ticks n bw < bw.1.target_length ∧
      (growth_ticks n bw = 0 ∨ growth_ticks n bw + 1 ≤ (updates n bw).1.segments.length) := by
  induction n with
  | zero => exact ⟨hL, Or.inl rfl⟩
  | succ n ih =>
    rw [updates_succ_bolt] at h
    have hg := grow_still_growing _ _ _ h
    obtain ⟨ih1, ih2⟩ := ih hg
    simp only [growth_ticks]
    by_cases hd : reading n bw - (updates n bw).1.last_growth_time > LIGHTNING_GROWTH_DELAY
    · rw [if_pos hd]
      obtain ⟨g1, g2, g3⟩ := grow_due_still_growing _ _ _ hg hd h
      rw [updates_target_length] at g2
      rw [updates_succ_bolt]
      refine ⟨by omega, Or.inr (by omega)⟩
    · rw [if_neg hd, updates_succ_bolt, grow_not_due _ _ _ hd]
      exact ⟨ih1, ih2⟩

/-- Once the bolt of a run is decaying, later calls find the same bolt. -/
theorem updates_decaying (bw : LightningBolt × World) (i : Nat)
    (h : (updates i bw).1.is_growing = false) (d : Nat) :
    (updates (i + d) bw).1 = (updates i bw).1 := by
  induction d with
  | zero => rfl
  | succ d ih =>
    rw [← Nat.add_assoc, updates_succ_bolt, ih, grow_not_growing _ _ _ h]

/-- Under a monotone clock every call of a run reads a clock that is a shifted copy of the
original one, and finds only segments stamped no later than its own reading. -/
theorem updates_clock (bw : LightningBolt × World) (hm : Monotone bw.2.clock)
    (hpast : ∀ s ∈ bw.1.segments, s.creation_time ≤ bw.2.clock 0) (n : Nat) :
    (∃ j, ∀ k, (updates n bw).2.clock k = bw.2.clock (k + j)) ∧
      ∀ s ∈ (updates n bw).1.segments, s.creation_time ≤ reading n bw := by
  induction n with
  | zero => exact ⟨⟨0, fun k => rfl⟩, hpast⟩
  | succ n ih =>
    obtain ⟨⟨j0, hj0⟩, hp⟩ := ih
    obtain ⟨l, j, e, hk, hl⟩ := grow_outcome (updates n bw).1 (reading n bw)
      (now (updates n bw).2).2
    have hk1 : ∀ k, (updates (n + 1) bw).2.clock k = bw.2.clock (k + (1 + j + j0)) := by
      intro k
      rw [updates_succ_world, hk]
      show (updates n bw).2.clock (k + j + 1) = _
      rw [hj0]
      congr 1
      omega
    have hr0 : reading n bw = bw.2.clock j0 := by
      unfold reading
      rw [hj0, Nat.zero_add]
    have hr1 : reading (n + 1) bw = bw.2.clock (1 + j + j0) := by
      unfold reading
      rw [hk1, Nat.zero_add]
    refine ⟨⟨_, hk1⟩, ?_⟩
    intro s hs
    rw [updates_succ_bolt, e] at hs
    rw [hr1]
    rcases List.mem_append.1 hs with h | h
    · exact le_trans (hp s h) (by rw [hr0]; exact hm (by omega))
    · rcases hl s h with h2 | ⟨i, hi, h2⟩
      · rw [h2, hr0]; exact hm (by omega)
      · rw [h2]
        show (updates n bw).2.clock (i + 1) ≤ _
        rw [hj0]
        exact hm (by omega)

theorem reading_mono (bw : LightningBolt × World) (hm : Monotone bw.2.clock)
    (hpast : ∀ s ∈ bw.1.segments, s.creation_time ≤ bw.2.clock 0) (n : Nat) :
    reading n bw ≤ reading (n + 1) bw := by
  obtain ⟨⟨j0, hj0⟩, -⟩ := updates_clock bw hm hpast n
  obtain ⟨l, j, e, hk, hl⟩ := grow_outcome (updates n bw).1 (reading n bw)
    (now (updates n bw).2).2
  unfold reading
  rw [updates_succ_world, hk]
  show (updates n bw).2.clock 0 ≤ (updates n bw).2.clock (0 + j + 1)
  rw [hj0, hj0]
  exact hm (by omega)

/-- A growth step at which a growing bolt stops appends nothing. -/
theorem grow_stop_segments (b : LightningBolt) (t : Int) (w : World)
    (hg : b.is_growing = true) (h : (grow b t w).1.is_growing = false) :
    (grow b t w).1.segments = b.segments := by
  unfold grow at h ⊢
  dsimp only at h ⊢
  split_ifs at h ⊢ with h1 h2 h3 h4
  · rfl
  · rfl
  · exact absurd hg (by dsimp only at h; simp [h])
  · exact absurd hg (by dsimp only at h; simp [h])
  · rfl

/-- A decaying bolt all of whose segments are at least `SEGMENT_LIFESPAN` old is reported dead. -/
theorem update_dead (b : LightningBolt) (w : World) (hg : b.is_growing = false)
    (h : ∀ s ∈ b.segments, SEGMENT_LIFESPAN ≤ w.clock 0 - s.creation_time) :
    (update b w).1 = false := by
  unfold update
  dsimp only
  rw [grow_not_growing b _ _ hg]
  rw [if_pos ⟨hg, (all_expired_iff _ _).2 h⟩]

/-- A bolt fresh from the constructor under a monotone clock: the clock it leaves is monotone and
its segment is stamped no later than the next reading. -/
theorem constructor_clock (start_x start_y width height : Int) (w : World)
    (hm : Monotone w.clock) :
    Monotone (LightningBolt.LightningBolt start_x start_y width height w).2.clock ∧
      ∀ s ∈ (LightningBolt.LightningBolt start_x start_y width height w).1.segments,
        s.creation_time ≤ (LightningBolt.LightningBolt start_x start_y width height w).2.clock 0 := by
  constructor
  · intro a b hab
    exact hm (show a + 1 + 1 ≤ b + 1 + 1 by omega)
  · intro s hs
    simp only [LightningBolt.LightningBolt, List.mem_singleton] at hs
    subst hs
    exact hm (show 1 ≤ 0 + 1 + 1 by omega)

theorem world_calm_clock_monotone : Monotone world_calm.clock := by
  intro a b hab
  have h : (a : Int) ≤ (b : Int) := by exact_mod_cast hab
  show (6000000 : Int) * a ≤ 6000000 * b
  omega

/-! ## What growth depends on -/

theorem uniform_int_distribution_congr (a b : Int) {w1 w2 : World}
    (h : w1.generator = w2.generator) :
    (uniform_int_distribution a b w1).1 = (uniform_int_distribution a b w2).1 ∧
      (uniform_int_distribution a b w1).2.generator =
        (uniform_int_distribution a b w2).2.generator := by
  simp only [uniform_int_distribution, h, and_self]

theorem addFork_positions_aux (max_x max_y : Int) (n : Nat) :
    (∀ (fork_len i : Int) (sp1 sp2 : LightningSegment) (segs1 segs2 : List LightningSegment)
        (w1 w2 : World), (max_y - 1 - sp1.y).toNat ≤ n → position sp1 = position sp2 →
        segs1.map position = segs2.map position → w1.generator = w2.generator →
      (addFork_loop max_x max_y fork_len i sp1 segs1 w1).1.map position =
          (addFork_loop max_x max_y fork_len i sp2 segs2 w2).1.map position ∧
        (addFork_loop max_x max_y fork_len i sp1 segs1 w1).2.generator =
          (addFork_loop max_x max_y fork_len i sp2 segs2 w2).2.generator) ∧
    (∀ (sp1 sp2 : LightningSegment) (segs1 segs2 : List LightningSegment)
        (w1 w2 : World), (max_y - 1 - sp1.y).toNat ≤ n → position sp1 = position sp2 →
        segs1.map position = segs2.map position → w1.generator = w2.generator →
      (addFork max_x max_y sp1 segs1 w1).1.map position =
          (addFork max_x max_y sp2 segs2 w2).1.map position ∧
        (addFork max_x max_y sp1 segs1 w1).2.generator =
          (addFork max_x max_y sp2 segs2 w2).2.generator) := by
  have fork_of_loop : ∀ m : Nat,
      (∀ (fork_len i : Int) (sp1 sp2 : LightningSegment) (segs1 segs2 : List LightningSegment)
        (w1 w2 : World), (max_y - 1 - sp1.y).toNat ≤ m → position sp1 = position sp2 →
        segs1.map position = segs2.map position → w1.generator = w2.generator →
      (addFork_loop max_x max_y fork_len i sp1 segs1 w1).1.map position =
          (addFork_loop max_x max_y fork_len i sp2 segs2 w2).1.map position ∧
        (addFork_loop max_x max_y fork_len i sp1 segs1 w1).2.generator =
          (addFork_loop max_x max_y fork_len i sp2 segs2 w2).2.generator) →
      ∀ (sp1 sp2 : LightningSegment) (segs1 segs2 : List LightningSegment)
        (w1 w2 : World), (max_y - 1 - sp1.y).toNat ≤ m → position sp1 = position sp2 →
        segs1.map position = segs2.map position → w1.generator = w2.generator →
      (addFork max_x max_y sp1 segs1 w1).1.map position =
          (addFork max_x max_y sp2 segs2 w2).1.map position ∧
        (addFork max_x max_y sp1 segs1 w1).2.generator =
          (addFork max_x max_y sp2 segs2 w2).2.generator := by
    intro m hloop sp1 sp2 segs1 segs2 w1 w2 hm hp hs hw
    rw [addFork.eq_1 max_x max_y sp1, addFork.eq_1 max_x max_y sp2]
    have hl := uniform_int_distribution_congr (max_y.tdiv 6) (max_y.tdiv 3) hw
    unfold len_dist
    rw [hl.1]
    exact hloop _ _ _ _ _ _ _ _ hm hp hs hl.2
  induction n with
  | zero =>
    have hloop : ∀ (fork_len i : Int) (sp1 sp2 : LightningSegment)
        (segs1 segs2 : List LightningSegment) (w1 w2 : World),
        (max_y - 1 - sp1.y).toNat ≤ 0 → position sp1 = position sp2 →
        segs1.map position = segs2.map position → w1.generator = w2.generator →
        (addFork_loop max_x max_y fork_len i sp1 segs1 w1).1.map position =
            (addFork_loop max_x max_y fork_len i sp2 segs2 w2).1.map position ∧
          (addFork_loop max_x max_y fork_len i sp1 segs1 w1).2.generator =
            (addFork_loop max_x max_y fork_len i sp2 segs2 w2).2.generator := by
      intro fork_len i sp1 sp2 segs1 segs2 w1 w2 hm hp hs hw
      have hy : sp1.y = sp2.y := congrArg Prod.snd hp
      rw [addFork_loop.eq_1 max_x max_y fork_len i sp1,
        addFork_loop.eq_1 max_x max_y fork_len i sp2,
        if_neg (by omega), if_neg (by omega)]
      exact ⟨hs, hw⟩
    exact ⟨hloop, fork_of_loop 0 hloop⟩
  | succ n ih =>
    have hloop : ∀ (fork_len i : Int) (sp1 sp2 : LightningSegment)
        (segs1 segs2 : List LightningSegment) (w1 w2 : World),
        (max_y - 1 - sp1.y).toNat ≤ n + 1 → position sp1 = position sp2 →
        segs1.map position = segs2.map position → w1.generator = w2.generator →
        (addFork_loop max_x max_y fork_len i sp1 segs1 w1).1.map position =
            (addFork_loop max_x max_y fork_len i sp2 segs2 w2).1.map position ∧
          (addFork_loop max_x max_y fork_len i sp1 segs1 w1).2.generator =
            (addFork_loop max_x max_y fork_len i sp2 segs2 w2).2.generator := by
      intro fork_len i sp1 sp2 segs1 segs2 w1 w2 hm hp hs hw
      have hx : sp1.x = sp2.x := congrArg Prod.fst hp
      have hy : sp1.y = sp2.y := congrArg Prod.snd hp
      rw [addFork_loop.eq_1 max_x max_y fork_len i sp1,
        addFork_loop.eq_1 max_x max_y fork_len i sp2]
      by_cases hc : i < fork_len ∧ sp1.y < max_y - 1
      · rw [if_pos hc, if_pos (by rw [← hy]; exact hc)]
        dsimp only
        have hd := uniform_int_distribution_congr (-1) 1 hw
        have hn : (now (uniform_int_distribution (-1) 1 w1).2).2.generator =
            (now (uniform_int_distribution (-1) 1 w2).2).2.generator := hd.2
        have hk := uniform_int_distribution_congr 0 100 hn
        rw [← hd.1, ← hk.1, ← hx, ← hy]
        generalize (uniform_int_distribution 0 100
          (now (uniform_int_distribution (-1) 1 w1).2).2).2 = v1 at hk ⊢
        generalize (uniform_int_distribution 0 100
          (now (uniform_int_distribution (-1) 1 w2).2).2).2 = v2 at hk ⊢
        generalize (now (uniform_int_distribution (-1) 1 w1).2).1 = t1
        generalize (now (uniform_int_distribution (-1) 1 w2).2).1 = t2
        have hp1 : position (⟨max 1 (min (max_x - 1) (sp1.x +
            (uniform_int_distribution (-1) 1 w1).1)), sp1.y + 1, t1⟩ : LightningSegment) =
            position ⟨max 1 (min (max_x - 1) (sp1.x +
            (uniform_int_distribution (-1) 1 w1).1)), sp1.y + 1, t2⟩ := rfl
        have hs1 : (segs1 ++ [(⟨max 1 (min (max_x - 1) (sp1.x +
            (uniform_int_distribution (-1) 1 w1).1)), sp1.y + 1, t1⟩ :
            LightningSegment)]).map position =
            (segs2 ++ [(⟨max 1 (min (max_x - 1) (sp1.x +
            (uniform_int_distribution (-1) 1 w1).1)), sp1.y + 1, t2⟩ :
            LightningSegment)]).map position := by
          simp only [List.map_append, hs, List.map_cons, List.map_nil, position]
        have hm1 : (max_y - 1 - (⟨max 1 (min (max_x - 1) (sp1.x +
            (uniform_int_distribution (-1) 1 w1).1)), sp1.y + 1, t1⟩ :
            LightningSegment).y).toNat ≤ n := by
          dsimp only
          omega
        refine ih.1 _ _ _ _ _ _ _ _ hm1 hp1 ?_ ?_
        · split_ifs
          · exact (ih.2 _ _ _ _ _ _ hm1 hp1 hs1 hk.2).1
          · exact hs1
        · split_ifs
          · exact (ih.2 _ _ _ _ _ _ hm1 hp1 hs1 hk.2).2
          · exact hk.2
      · rw [if_neg hc, if_neg (by rw [← hy]; exact hc)]
        exact ⟨hs, hw⟩
    exact ⟨hloop, fork_of_loop (n + 1) hloop⟩


/-- `addFork` run from two lists holding the same positions, from the same position and with the
same generator, produces the same positions and leaves the same generator. -/
theorem addFork_positions (max_x max_y : Int) (sp1 sp2 : LightningSegment)
    (segs1 segs2 : List LightningSegment) (w1 w2 : World) (hp : position sp1 = position sp2)
    (hs : segs1.map position = segs2.map position) (hw : w1.generator = w2.generator) :
    (addFork max_x max_y sp1 segs1 w1).1.map position =
        (addFork max_x max_y sp2 segs2 w2).1.map position ∧
      (addFork max_x max_y sp1 segs1 w1).2.generator =
        (addFork max_x max_y sp2 segs2 w2).2.generator :=
  (addFork_positions_aux max_x max_y _).2 sp1 sp2 segs1 segs2 w1 w2 le_rfl hp hs hw

theorem getLast_position {l1 l2 : List LightningSegment} (h : l1.map position = l2.map position)
    (h1 : l1 ≠ []) (h2 : l2 ≠ []) : position (l1.getLast h1) = position (l2.getLast h2) := by
  have e := congrArg List.getLast? h
  rw [List.getLast?_map, List.getLast?_map, List.getLast?_eq_getLast l1 h1,
    List.getLast?_eq_getLast l2 h2] at e
  simpa using e

/-- The growth step run at the same clock reading on two bolts of the same shape, with the same
generator, gives bolts of the same shape and leaves the same generator. -/
theorem grow_same_shape (b1 b2 : LightningBolt) (t : Int) (w1 w2 : World)
    (h : SameShape b1 b2) (hw : w1.generator = w2.generator) :
    SameShape (grow b1 t w1).1 (grow b2 t w2).1 ∧
      (grow b1 t w1).2.generator = (grow b2 t w2).2.generator := by
  obtain ⟨segs1, lgt, g, my, mx, tl⟩ := b1
  obtain ⟨segs2, lgt2, g2, my2, mx2, tl2⟩ := b2
  obtain ⟨hs, e1, e2, e3, e4, e5⟩ := h
  dsimp only at hs e1 e2 e3 e4 e5
  subst e1 e2 e3 e4 e5
  have hlen : segs1.length = segs2.length := by
    have := congrArg List.length hs
    simpa using this
  have hnil : segs1 = [] ↔ segs2 = [] := by
    rw [← List.length_eq_zero, ← List.length_eq_zero (l := segs2), hlen]
  unfold grow
  dsimp only
  by_cases h1 : g = true ∧ t - lgt > LIGHTNING_GROWTH_DELAY
  · rw [if_pos h1, if_pos h1]
    by_cases h2 : segs1 = [] ∨ segs1.length ≥ tl
    · have h2' : segs2 = [] ∨ segs2.length ≥ tl := by rw [← hnil, ← hlen]; exact h2
      rw [dif_pos h2, dif_pos h2']
      exact ⟨⟨hs, rfl, rfl, rfl, rfl, rfl⟩, hw⟩
    · have h2' : ¬ (segs2 = [] ∨ segs2.length ≥ tl) := by rw [← hnil, ← hlen]; exact h2
      rw [dif_neg h2, dif_neg h2']
      have hl := getLast_position hs (fun e => h2 (Or.inl e)) (fun e => h2' (Or.inl e))
      have hx : (segs1.getLast (fun e => h2 (Or.inl e))).x =
          (segs2.getLast (fun e => h2' (Or.inl e))).x := congrArg Prod.fst hl
      have hy : (segs1.getLast (fun e => h2 (Or.inl e))).y =
          (segs2.getLast (fun e => h2' (Or.inl e))).y := congrArg Prod.snd hl
      generalize segs1.getLast (fun e => h2 (Or.inl e)) = last1 at hl hx hy ⊢
      generalize segs2.getLast (fun e => h2' (Or.inl e)) = last2 at hl hx hy ⊢
      have hd := uniform_int_distribution_congr (-1) 1 hw
      have hk := uniform_int_distribution_congr 0 100 hd.2
      rw [← hd.1, ← hk.1, ← hx, ← hy]
      by_cases h3 : last1.y ≥ my - 1
      · rw [if_pos h3, if_pos h3]
        exact ⟨⟨hs, rfl, rfl, rfl, rfl, rfl⟩, hw⟩
      · rw [if_neg h3, if_neg h3]
        have hs1 : (segs1 ++ [(⟨max 1 (min (mx - 1) (last1.x +
            (uniform_int_distribution (-1) 1 w1).1)), last1.y + 1, t⟩ :
            LightningSegment)]).map position =
            (segs2 ++ [(⟨max 1 (min (mx - 1) (last1.x +
            (uniform_int_distribution (-1) 1 w1).1)), last1.y + 1, t⟩ :
            LightningSegment)]).map position := by
          simp only [List.map_append, hs]
        by_cases h4 : (uniform_int_distribution 0 100
            (uniform_int_distribution (-1) 1 w1).2).1 < FORK_CHANCE
        · rw [if_pos h4, if_pos h4]
          have hf := addFork_positions mx my last1 last2 _ _ _ _ hl hs1 hk.2
          exact ⟨⟨hf.1, rfl, rfl, rfl, rfl, rfl⟩, hf.2⟩
        · rw [if_neg h4, if_neg h4]
          exact ⟨⟨hs1, rfl, rfl, rfl, rfl, rfl⟩, hk.2⟩
  · rw [if_neg h1, if_neg h1]
    exact ⟨⟨hs, rfl, rfl, rfl, rfl, rfl⟩, hw⟩

/-- Runs of two bolts of the same shape, with the same generator, whose `update` calls read the
same clock: after every call the bolts have the same shape and the generators are the same. -/
theorem updates_same_shape (bw1 bw2 : LightningBolt × World) (h : SameShape bw1.1 bw2.1)
    (hw : bw1.2.generator = bw2.2.generator) (hr : ∀ n, reading n bw1 = reading n bw2) (n : Nat) :
    SameShape (updates n bw1).1 (updates n bw2).1 ∧
      (updates n bw1).2.generator = (updates n bw2).2.generator := by
  induction n with
  | zero => exact ⟨h, hw⟩
  | succ n ih =>
    rw [updates_succ_bolt, updates_succ_bolt, updates_succ_world, updates_succ_world, hr n]
    exact grow_same_shape _ _ _ _ _ ih.1 ih.2

/-! ## C4 -/

/-- A bolt fresh from the constructor has the shape fixed by its arguments, the generator and the
first clock reading. -/
theorem constructor_same_shape (start_x start_y width height : Int) (w1 w2 : World)
    (hg : w1.generator = w2.generator) (h0 : w1.clock 0 = w2.clock 0) :
    SameShape (LightningBolt.LightningBolt start_x start_y width height w1).1
        (LightningBolt.LightningBolt start_x start_y width height w2).1 ∧
      (LightningBolt.LightningBolt start_x start_y width height w1).2.generator =
        (LightningBolt.LightningBolt start_x start_y width height w2).2.generator := by
  have hl := uniform_int_distribution_congr (height.tdiv 2) (height - 2)
    (show (now w1).2.generator = (now w2).2.generator from hg)
  refine ⟨⟨rfl, h0, rfl, rfl, rfl, ?_⟩, hl.2⟩
  show size_t_of_int _ = size_t_of_int _
  rw [hl.1]

/-- C4: two bolts constructed with the same start position and bounds from generators in the same
state, constructed at the same clock reading and then driven by `update` calls that read the same
clock readings, hold the same columns and rows in the same order and the same growing flag after
every call.  (The time stamps given to segments are further clock readings and may differ.) -/
theorem C4_growth_deterministic (start_x start_y width height : Int) (w1 w2 : World)
    (hg : ∀ k, w1.generator k = w2.generator k) (h0 : w1.clock 0 = w2.clock 0)
    (hr : ∀ n, reading n (LightningBolt.LightningBolt start_x start_y width height w1) =
      reading n (LightningBolt.LightningBolt start_x start_y width height w2))
    (n : Nat) :
    (updates n (LightningBolt.LightningBolt start_x start_y width height w1)).1.segments.map
          position =
        (updates n (LightningBolt.LightningBolt start_x start_y width height w2)).1.segments.map
          position ∧
      (updates n (LightningBolt.LightningBolt start_x start_y width height w1)).1.is_growing =
        (updates n (LightningBolt.LightningBolt start_x start_y width height w2)).1.is_growing := by
  obtain ⟨hc, hw⟩ := constructor_same_shape start_x start_y width height w1 w2 (funext hg) h0
  obtain ⟨⟨h1, -, h2, -⟩, -⟩ := updates_same_shape _ _ hc hw hr n
  exact ⟨h1, h2⟩

/-- C4 witness: two runs of five updates from (40, 1) on an 80 x 24 grid. -/
theorem C4_growth_deterministic_witness :
    (∀ k, world_count.generator k = world_count.generator k) ∧
      world_count.clock 0 = world_count.clock 0 ∧
      (∀ n, reading n (LightningBolt.LightningBolt 40 1 80 24 world_count) =
        reading n (LightningBolt.LightningBolt 40 1 80 24 world_count)) ∧
      (updates 5 (LightningBolt.LightningBolt 40 1 80 24 world_count)).1.segments.map position =
        (updates 5 (LightningBolt.LightningBolt 40 1 80 24 world_count)).1.segments.map
          position ∧
      (updates 5 (LightningBolt.LightningBolt 40 1 80 24 world_count)).1.is_growing =
        (updates 5 (LightningBolt.LightningBolt 40 1 80 24 world_count)).1.is_growing :=
  ⟨fun _ => rfl, rfl, fun _ => rfl,
    C4_growth_deterministic 40 1 80 24 world_count world_count (fun _ => rfl) rfl
      (fun _ => rfl) 5⟩

/-! ## C7 -/

/-- C7: for every bolt with target trunk length at least 1, under a monotone clock and with its
segments stamped no later than the first reading, (1) once the `update` calls so far include
`target_length` growth ticks the bolt is no longer growing, and (2) if the call reading `T` is the
one at which it stopped growing, every later call whose reading is at least `T + 0.9 s`
(900000000 ticks) returns false. -/
theorem C7_grow_then_expire (b : LightningBolt) (w : World) (hL : 1 ≤ b.target_length)
    (hm : Monotone w.clock) (hpast : ∀ s ∈ b.segments, s.creation_time ≤ w.clock 0) :
    (∀ n, b.target_length ≤ growth_ticks n (b, w) → (updates n (b, w)).1.is_growing = false) ∧
      ∀ i j, (updates i (b, w)).1.is_growing = true →
        (updates (i + 1) (b, w)).1.is_growing = false → i < j →
        reading i (b, w) + 900000000 ≤ reading j (b, w) →
        (update (updates j (b, w)).1 (updates j (b, w)).2).1 = false := by
  constructor
  · intro n hn
    by_contra hg
    have := (growth_ticks_lt (b, w) hL n (by simpa using hg)).1
    exact absurd hn (by simpa using this)
  · intro i j hi hi1 hij hT
    obtain ⟨d, rfl⟩ : ∃ d, j = i + 1 + d := ⟨j - (i + 1), by omega⟩
    have hb := updates_decaying (b, w) (i + 1) hi1 d
    have hseg : (updates (i + 1) (b, w)).1.segments = (updates i (b, w)).1.segments := by
      rw [updates_succ_bolt] at hi1 ⊢
      exact grow_stop_segments _ _ _ hi hi1
    apply update_dead
    · rw [hb]; exact hi1
    · intro s hs
      rw [hb, hseg] at hs
      have h1 := (updates_clock (b, w) hm hpast i).2 s hs
      unfold reading at hT h1
      simp only [SEGMENT_LIFESPAN]
      omega

/-- C7 witness: scenario 1 under a clock advancing 6 ms per reading. -/
theorem C7_grow_then_expire_witness :
    1 ≤ bolt_scenario.target_length ∧ Monotone world_calm.clock ∧
      (∀ s ∈ bolt_scenario.segments, s.creation_time ≤ world_calm.clock 0) ∧
      (∀ n, bolt_scenario.target_length ≤ growth_ticks n (bolt_scenario, world_calm) →
        (updates n (bolt_scenario, world_calm)).1.is_growing = false) ∧
      ∀ i j, (updates i (bolt_scenario, world_calm)).1.is_growing = true →
        (updates (i + 1) (bolt_scenario, world_calm)).1.is_growing = false → i < j →
        reading i (bolt_scenario, world_calm) + 900000000 ≤
          reading j (bolt_scenario, world_calm) →
        (update (updates j (bolt_scenario, world_calm)).1
          (updates j (bolt_scenario, world_calm)).2).1 = false :=
  ⟨by decide, world_calm_clock_monotone, by simp [bolt_scenario, world_calm],
    C7_grow_then_expire bolt_scenario world_calm (by decide) world_calm_clock_monotone
      (by simp [bolt_scenario, world_calm])⟩

/-! ## Lemmas on `double` arithmetic -/

theorem bit_length_aux_spec (fuel n : Nat) (hn : n ≠ 0) (hf : n ≤ fuel) :
    2 ^ (bit_length_aux fuel n - 1) ≤ n ∧ n < 2 ^ bit_length_aux fuel n ∧
      1 ≤ bit_length_aux fuel n := by
  induction fuel generalizing n with
  | zero => omega
  | succ fuel ih =>
    simp only [bit_length_aux, if_neg hn]
    by_cases h2 : n / 2 = 0
    · have h1 : n = 1 := by omega
      subst h1
      have : bit_length_aux fuel (1 / 2) = 0 := by
        cases fuel <;> simp [bit_length_aux]
      rw [this]
      simp
    · obtain ⟨i1, i2, i3⟩ := ih (n / 2) h2 (by omega)
      refine ⟨?_, ?_, by omega⟩
      · have e : 1 + bit_length_aux fuel (n / 2) - 1 = (bit_length_aux fuel (n / 2) - 1) + 1 := by
          omega
        rw [e, pow_succ]
        omega
      · rw [Nat.add_comm, pow_succ]
        omega

theorem bit_length_spec (n : Nat) (hn : n ≠ 0) :
    2 ^ (bit_length n - 1) ≤ n ∧ n < 2 ^ bit_length n ∧ 1 ≤ bit_length n :=
  bit_length_aux_spec n n hn le_rfl

theorem round_half_even_spec (N D : Nat) (hD : 0 < D) :
    2 * N ≤ 2 * (round_half_even N D * D) + D ∧ 2 * (round_half_even N D * D) ≤ 2 * N + D := by
  have h := Nat.div_add_mod N D
  have hm := Nat.mod_lt N hD
  have e1 : (N / D + 1) * D = D * (N / D) + D := by ring
  have e2 : N / D * D = D * (N / D) := by ring
  unfold round_half_even
  split_ifs <;> simp only [e1, e2] <;> omega


theorem scaled_eq (a d : Nat) (e : Int) (hd : 0 < d) :
    ((a * 2 ^ (-e).toNat : ℕ) : ℚ) / ((d * 2 ^ e.toNat : ℕ) : ℚ) = (a : ℚ) / d * (2 : ℚ) ^ (-e) := by
  have hd' : (d : ℚ) ≠ 0 := by exact_mod_cast hd.ne'
  rcases le_total 0 e with h | h
  · obtain ⟨n, rfl⟩ := Int.eq_ofNat_of_zero_le h
    have h1 : (-(n : Int)).toNat = 0 := by omega
    rw [h1]
    simp only [Int.toNat_ofNat, pow_zero, mul_one, Nat.cast_mul, Nat.cast_pow, Nat.cast_ofNat,
      zpow_neg, zpow_natCast]
    field_simp
  · obtain ⟨n, hn⟩ := Int.eq_ofNat_of_zero_le (show 0 ≤ -e by omega)
    have h1 : e.toNat = 0 := by omega
    rw [h1, hn]
    simp only [Int.toNat_ofNat, pow_zero, mul_one, Nat.cast_mul, Nat.cast_pow, Nat.cast_ofNat,
      zpow_natCast]
    field_simp

theorem scaled_ge (a d : Nat) (ha : 0 < a) (hd : 0 < d) :
    (2 : ℚ) ^ (52 : ℕ) ≤ (a : ℚ) / d * (2 : ℚ) ^ (-frac_exponent a d) := by
  have hd' : (0 : ℚ) < d := by exact_mod_cast hd
  unfold frac_exponent
  dsimp only
  split_ifs with h
  · rw [← scaled_eq a d _ hd]
    rw [le_div_iff₀ (by positivity)]
    have : ((4503599627370496 * (d * 2 ^ ((bit_length a : Int) - bit_length d - 52).toNat) : ℕ) : ℚ) ≤
        ((a * 2 ^ (-((bit_length a : Int) - bit_length d - 52)).toNat : ℕ) : ℚ) := by
      exact_mod_cast h
    calc (2 : ℚ) ^ (52 : ℕ) * ((d * 2 ^ ((bit_length a : Int) - bit_length d - 52).toNat : ℕ) : ℚ)
        = ((4503599627370496 * (d * 2 ^ ((bit_length a : Int) - bit_length d - 52).toNat) : ℕ) : ℚ) := by
          push_cast; norm_num
      _ ≤ _ := this
  · obtain ⟨a1, -, a3⟩ := bit_length_spec a ha.ne'
    obtain ⟨-, d2, d3⟩ := bit_length_spec d hd.ne'
    have ha1 : (2 : ℚ) ^ ((bit_length a : ℤ) - 1) ≤ a := by
      have : ((2 ^ (bit_length a - 1) : ℕ) : ℚ) ≤ a := by exact_mod_cast a1
      have e : ((bit_length a : ℤ) - 1) = ((bit_length a - 1 : ℕ) : ℤ) := by omega
      rw [e, zpow_natCast]
      exact_mod_cast this
    have hd2 : (d : ℚ) ≤ (2 : ℚ) ^ (bit_length d : ℤ) := by
      have : (d : ℚ) ≤ ((2 ^ bit_length d : ℕ) : ℚ) := by exact_mod_cast d2.le
      rw [zpow_natCast]
      exact_mod_cast this
    have h2 : (0 : ℚ) < (2 : ℚ) ^ (-((bit_length a : ℤ) - bit_length d - 52 - 1)) := by positivity
    have hq : (2 : ℚ) ^ ((bit_length a : ℤ) - 1 - bit_length d) ≤ (a : ℚ) / d := by
      rw [le_div_iff₀ hd']
      calc (2 : ℚ) ^ ((bit_length a : ℤ) - 1 - bit_length d) * d
          ≤ (2 : ℚ) ^ ((bit_length a : ℤ) - 1 - bit_length d) * (2 : ℚ) ^ (bit_length d : ℤ) :=
            mul_le_mul_of_nonneg_left hd2 (by positivity)
        _ = (2 : ℚ) ^ ((bit_length a : ℤ) - 1) := by
            rw [← zpow_add₀ (by norm_num : (2 : ℚ) ≠ 0)]
            congr 1
            ring
        _ ≤ a := ha1
    calc (2 : ℚ) ^ (52 : ℕ)
        = (2 : ℚ) ^ ((bit_length a : ℤ) - 1 - bit_length d) *
            (2 : ℚ) ^ (-((bit_length a : ℤ) - bit_length d - 52 - 1)) := by
          rw [← zpow_add₀ (by norm_num : (2 : ℚ) ≠ 0), ← zpow_natCast]
          congr 1
          push_cast
          ring
      _ ≤ (a : ℚ) / d * (2 : ℚ) ^ (-((bit_length a : ℤ) - bit_length d - 52 - 1)) :=
          mul_le_mul_of_nonneg_right hq h2.le

/-- Relative error of rounding a positive fraction: at most `2^-53`. -/
theorem double_of_frac_pos (a d : Nat) (ha : 0 < a) (hd : 0 < d) :
    (a : ℚ) / d * (1 - 1 / 9007199254740992) ≤ (double_of_frac a d).val ∧
      (double_of_frac a d).val ≤ (a : ℚ) / d * (1 + 1 / 9007199254740992) := by
  have hn : ((a : ℕ) : ℤ) ≠ 0 := by omega
  have hs : ((a : ℕ) : ℤ).sign = 1 := Int.sign_eq_one_of_pos (by omega)
  have hv : (double_of_frac a d).val =
      (frac_mantissa a d : ℚ) * (2 : ℚ) ^ frac_exponent a d := by
    unfold double_of_frac
    rw [if_neg hn]
    simp [Double.val, hs]
  rw [hv]
  have hp : (0 : ℚ) < (2 : ℚ) ^ frac_exponent a d := by positivity
  have hD : 0 < d * 2 ^ (frac_exponent a d).toNat := by positivity
  obtain ⟨r1, r2⟩ := round_half_even_spec (a * 2 ^ (-frac_exponent a d).toNat)
    (d * 2 ^ (frac_exponent a d).toNat) hD
  have hge := scaled_ge a d ha hd
  have hse := scaled_eq a d (frac_exponent a d) hd
  have hDq : (0 : ℚ) < ((d * 2 ^ (frac_exponent a d).toNat : ℕ) : ℚ) := by exact_mod_cast hD
  -- the scaled fraction `S` and the mantissa differ by at most one half
  have q1 : ((a * 2 ^ (-frac_exponent a d).toNat : ℕ) : ℚ) /
      ((d * 2 ^ (frac_exponent a d).toNat : ℕ) : ℚ) ≤ (frac_mantissa a d : ℚ) + 1 / 2 := by
    rw [div_le_iff₀ hDq]
    have : ((2 * (a * 2 ^ (-frac_exponent a d).toNat) : ℕ) : ℚ) ≤
        ((2 * (frac_mantissa a d * (d * 2 ^ (frac_exponent a d).toNat)) +
          d * 2 ^ (frac_exponent a d).toNat : ℕ) : ℚ) := by exact_mod_cast r1
    push_cast at this ⊢
    linarith
  have q2 : (frac_mantissa a d : ℚ) ≤ ((a * 2 ^ (-frac_exponent a d).toNat : ℕ) : ℚ) /
      ((d * 2 ^ (frac_exponent a d).toNat : ℕ) : ℚ) + 1 / 2 := by
    rw [← sub_le_iff_le_add, le_div_iff₀ hDq]
    have : ((2 * (frac_mantissa a d * (d * 2 ^ (frac_exponent a d).toNat)) : ℕ) : ℚ) ≤
        ((2 * (a * 2 ^ (-frac_exponent a d).toNat) +
          d * 2 ^ (frac_exponent a d).toNat : ℕ) : ℚ) := by exact_mod_cast r2
    push_cast at this ⊢
    linarith
  rw [hse] at q1 q2
  have hx : (a : ℚ) / d = (a : ℚ) / d * (2 : ℚ) ^ (-frac_exponent a d) *
      (2 : ℚ) ^ frac_exponent a d := by
    rw [mul_assoc, ← zpow_add₀ (by norm_num : (2 : ℚ) ≠ 0)]
    simp
  generalize (a : ℚ) / d * (2 : ℚ) ^ (-frac_exponent a d) = S at hge q1 q2 hx
  rw [hx]
  generalize (2 : ℚ) ^ frac_exponent a d = P at hp
  generalize (frac_mantissa a d : ℚ) = M at q1 q2
  have hS : (4503599627370496 : ℚ) ≤ S := by
    have : (2 : ℚ) ^ (52 : ℕ) = 4503599627370496 := by norm_num
    rw [← this]; exact hge
  constructor
  · have : S * (1 - 1 / 9007199254740992) ≤ M := by linarith
    calc S * P * (1 - 1 / 9007199254740992) = S * (1 - 1 / 9007199254740992) * P := by ring
      _ ≤ M * P := mul_le_mul_of_nonneg_right this hp.le
  · have : M ≤ S * (1 + 1 / 9007199254740992) := by linarith
    calc M * P ≤ S * (1 + 1 / 9007199254740992) * P := mul_le_mul_of_nonneg_right this hp.le
      _ = S * P * (1 + 1 / 9007199254740992) := by ring


theorem Double.val_pos_iff (a : Double) : 0 < a.val ↔ 0 < a.m := by
  have hp : (0 : ℚ) < (2 : ℚ) ^ a.e := by positivity
  unfold Double.val
  rw [mul_pos_iff_of_pos_right hp]
  exact Int.cast_pos

theorem Double.val_nonpos (a : Double) (h : a.m ≤ 0) : a.val ≤ 0 := by
  have hp : (0 : ℚ) < (2 : ℚ) ^ a.e := by positivity
  have : (a.m : ℚ) ≤ 0 := by exact_mod_cast h
  unfold Double.val
  exact mul_nonpos_of_nonpos_of_nonneg this hp.le

theorem Double.lt_iff (a b : Double) : a.lt b = true ↔ a.val < b.val := by
  have h2 : (2 : ℚ) ≠ 0 := by norm_num
  have hp : (0 : ℚ) < (2 : ℚ) ^ (min a.e b.e) := by positivity
  have ea : ((a.e - min a.e b.e).toNat : ℤ) = a.e - min a.e b.e :=
    Int.toNat_of_nonneg (by have := min_le_left a.e b.e; omega)
  have eb : ((b.e - min a.e b.e).toNat : ℤ) = b.e - min a.e b.e :=
    Int.toNat_of_nonneg (by have := min_le_right a.e b.e; omega)
  have va : a.val = ((a.m * 2 ^ (a.e - min a.e b.e).toNat : ℤ) : ℚ) * (2 : ℚ) ^ (min a.e b.e) := by
    unfold Double.val
    push_cast
    rw [mul_assoc, ← zpow_natCast, ea, ← zpow_add₀ h2]
    congr 2
    ring
  have vb : b.val = ((b.m * 2 ^ (b.e - min a.e b.e).toNat : ℤ) : ℚ) * (2 : ℚ) ^ (min a.e b.e) := by
    unfold Double.val
    push_cast
    rw [mul_assoc, ← zpow_natCast, eb, ← zpow_add₀ h2]
    congr 2
    ring
  rw [va, vb, mul_lt_mul_right hp, Int.cast_lt]
  unfold Double.lt
  exact decide_eq_true_iff

theorem double_of_frac_nonpos (n : Int) (d : Nat) (h : n ≤ 0) : (double_of_frac n d).m ≤ 0 := by
  unfold double_of_frac
  split_ifs with h0
  · exact le_rfl
  · have hs : n.sign = -1 := Int.sign_eq_neg_one_of_neg (by omega)
    simp only [hs]
    omega

theorem Double.div_nonpos (a b : Double) (ha : a.m ≤ 0) (hb : 0 < b.m) : (a.div b).m ≤ 0 := by
  have hs : b.m.sign = 1 := Int.sign_eq_one_of_pos hb
  unfold Double.div
  simp only [hs, mul_one]
  exact double_of_frac_nonpos _ _ ha

/-- Relative error of a division of positive doubles: at most `2^-53`. -/
theorem Double.div_pos (a b : Double) (ha : 0 < a.m) (hb : 0 < b.m) :
    a.val / b.val * (1 - 1 / 9007199254740992) ≤ (a.div b).val ∧
      (a.div b).val ≤ a.val / b.val * (1 + 1 / 9007199254740992) := by
  have h2 : (2 : ℚ) ≠ 0 := by norm_num
  have hs : b.m.sign = 1 := Int.sign_eq_one_of_pos hb
  obtain ⟨na, hna⟩ := Int.eq_ofNat_of_zero_le ha.le
  obtain ⟨nb, hnb⟩ := Int.eq_ofNat_of_zero_le hb.le
  have hna0 : 0 < na := by omega
  have hnb0 : 0 < nb := by omega
  have hnbq : (nb : ℚ) ≠ 0 := by exact_mod_cast hnb0.ne'
  have hv : (a.div b).val = (double_of_frac na nb).val * (2 : ℚ) ^ (a.e - b.e) := by
    unfold Double.div
    rw [hs, mul_one, hna, hnb, Int.natAbs_ofNat]
    simp only [Double.val]
    rw [zpow_add₀ h2, mul_assoc]
  have hq : a.val / b.val = (na : ℚ) / nb * (2 : ℚ) ^ (a.e - b.e) := by
    unfold Double.val
    rw [hna, hnb, zpow_sub₀ h2]
    have : (2 : ℚ) ^ b.e ≠ 0 := zpow_ne_zero _ h2
    push_cast
    field_simp
  obtain ⟨l, u⟩ := double_of_frac_pos na nb hna0 hnb0
  have hp : (0 : ℚ) < (2 : ℚ) ^ (a.e - b.e) := by positivity
  rw [hv, hq]
  constructor
  · calc (na : ℚ) / nb * (2 : ℚ) ^ (a.e - b.e) * (1 - 1 / 9007199254740992)
        = (na : ℚ) / nb * (1 - 1 / 9007199254740992) * (2 : ℚ) ^ (a.e - b.e) := by ring
      _ ≤ _ := mul_le_mul_of_nonneg_right l hp.le
  · calc (double_of_frac na nb).val * (2 : ℚ) ^ (a.e - b.e)
        ≤ (na : ℚ) / nb * (1 + 1 / 9007199254740992) * (2 : ℚ) ^ (a.e - b.e) :=
          mul_le_mul_of_nonneg_right u hp.le
      _ = _ := by ring


theorem double_of_int_period : double_of_int 1000000000 = ⟨8388608000000000, -23⟩ := by decide

theorem SEGMENT_LIFESPAN_count_eq : SEGMENT_LIFESPAN_count = ⟨8106479329266893, -53⟩ := by decide

theorem double_033 : double_of_frac 33 100 = ⟨5944751508129055, -54⟩ := by decide

theorem double_066 : double_of_frac 66 100 = ⟨5944751508129055, -53⟩ := by decide

theorem duration_sec_nonpos (d : Int) (h : d ≤ 0) : (duration_sec d).val ≤ 0 := by
  apply Double.val_nonpos
  apply Double.div_nonpos
  · exact double_of_frac_nonpos d 1 h
  · rw [double_of_int_period]; decide

theorem age_ratio_nonpos (d : Int) (h : d ≤ 0) : ((duration_sec d).div SEGMENT_LIFESPAN_count).val ≤ 0 := by
  apply Double.val_nonpos
  apply Double.div_nonpos
  · apply Double.div_nonpos
    · exact double_of_frac_nonpos d 1 h
    · rw [double_of_int_period]; decide
  · rw [SEGMENT_LIFESPAN_count_eq]; decide

/-- Two roundings separate `duration_sec d` from `d / 10^9`. -/
theorem duration_sec_pos (d : Int) (h : 0 < d) :
    0 < (duration_sec d).m ∧
      (d : ℚ) * ((1 - 1 / 9007199254740992) ^ 2 / 1000000000) ≤ (duration_sec d).val ∧
      (duration_sec d).val ≤ (d : ℚ) * ((1 + 1 / 9007199254740992) ^ 2 / 1000000000) := by
  obtain ⟨n, rfl⟩ := Int.eq_ofNat_of_zero_le h.le
  have hn : 0 < n := by omega
  have hnq : (0 : ℚ) < (n : ℚ) := by exact_mod_cast hn
  obtain ⟨l1, u1⟩ := double_of_frac_pos n 1 hn Nat.one_pos
  simp only [Nat.cast_one, div_one] at l1 u1
  have ha : 0 < (double_of_int (n : ℤ)).m := by
    rw [← Double.val_pos_iff]
    unfold double_of_int
    refine lt_of_lt_of_le ?_ l1
    exact mul_pos hnq (by norm_num)
  have hb : 0 < (double_of_int 1000000000).m := by rw [double_of_int_period]; decide
  have hbv : (double_of_int 1000000000).val = 1000000000 := by
    rw [double_of_int_period]
    norm_num [Double.val]
  obtain ⟨l2, u2⟩ := Double.div_pos _ _ ha hb
  rw [hbv] at l2 u2
  change _ ≤ (duration_sec (n : ℤ)).val at l2
  change (duration_sec (n : ℤ)).val ≤ _ at u2
  have l1' : (n : ℚ) * (1 - 1 / 9007199254740992) ≤ (double_of_int (n : ℤ)).val := l1
  have u1' : (double_of_int (n : ℤ)).val ≤ (n : ℚ) * (1 + 1 / 9007199254740992) := u1
  have hl : 0 < (duration_sec (n : ℤ)).val := by
    refine lt_of_lt_of_le ?_ l2
    have : 0 < (double_of_int (n : ℤ)).val := (Double.val_pos_iff _).2 ha
    positivity
  refine ⟨(Double.val_pos_iff _).1 hl, ?_, ?_⟩
  · push_cast
    refine le_trans ?_ l2
    have := mul_le_mul_of_nonneg_right l1'
      (show (0 : ℚ) ≤ (1 - 1 / 9007199254740992) / 1000000000 by norm_num)
    calc (n : ℚ) * ((1 - 1 / 9007199254740992) ^ 2 / 1000000000)
        = (n : ℚ) * (1 - 1 / 9007199254740992) * ((1 - 1 / 9007199254740992) / 1000000000) := by
          ring
      _ ≤ _ := this
      _ = _ := by ring
  · push_cast
    refine le_trans u2 ?_
    have := mul_le_mul_of_nonneg_right u1'
      (show (0 : ℚ) ≤ (1 + 1 / 9007199254740992) / 1000000000 by norm_num)
    calc (double_of_int (n : ℤ)).val / 1000000000 * (1 + 1 / 9007199254740992)
        = (double_of_int (n : ℤ)).val * ((1 + 1 / 9007199254740992) / 1000000000) := by ring
      _ ≤ _ := this
      _ = _ := by ring

/-- Three roundings separate the age ratio of `d` ticks from `d / (10^9 * 0.9)`. -/
theorem age_ratio_pos (d : Int) (h : 0 < d) :
    (d : ℚ) * ((1 - 1 / 9007199254740992) ^ 3 / 1000000000 /
        (8106479329266893 / 9007199254740992)) ≤ ((duration_sec d).div SEGMENT_LIFESPAN_count).val ∧
      ((duration_sec d).div SEGMENT_LIFESPAN_count).val ≤ (d : ℚ) * ((1 + 1 / 9007199254740992) ^ 3 / 1000000000 /
        (8106479329266893 / 9007199254740992)) := by
  obtain ⟨hm, l1, u1⟩ := duration_sec_pos d h
  have hb : 0 < SEGMENT_LIFESPAN_count.m := by rw [SEGMENT_LIFESPAN_count_eq]; decide
  have hbv : SEGMENT_LIFESPAN_count.val = 8106479329266893 / 9007199254740992 := by
    rw [SEGMENT_LIFESPAN_count_eq]
    norm_num [Double.val]
  obtain ⟨l2, u2⟩ := Double.div_pos _ _ hm hb
  rw [hbv] at l2 u2
  change _ ≤ ((duration_sec d).div SEGMENT_LIFESPAN_count).val at l2
  change ((duration_sec d).div SEGMENT_LIFESPAN_count).val ≤ _ at u2
  constructor
  · refine le_trans ?_ l2
    have := mul_le_mul_of_nonneg_right l1
      (show (0 : ℚ) ≤ (1 - 1 / 9007199254740992) / (8106479329266893 / 9007199254740992) by
        norm_num)
    calc (d : ℚ) * ((1 - 1 / 9007199254740992) ^ 3 / 1000000000 /
          (8106479329266893 / 9007199254740992))
        = (d : ℚ) * ((1 - 1 / 9007199254740992) ^ 2 / 1000000000) *
            ((1 - 1 / 9007199254740992) / (8106479329266893 / 9007199254740992)) := by ring
      _ ≤ _ := this
      _ = _ := by ring
  · refine le_trans u2 ?_
    have := mul_le_mul_of_nonneg_right u1
      (show (0 : ℚ) ≤ (1 + 1 / 9007199254740992) / (8106479329266893 / 9007199254740992) by
        norm_num)
    calc (duration_sec d).val / (8106479329266893 / 9007199254740992) *
          (1 + 1 / 9007199254740992)
        = (duration_sec d).val *
            ((1 + 1 / 9007199254740992) / (8106479329266893 / 9007199254740992)) := by ring
      _ ≤ _ := this
      _ = _ := by ring


theorem lt_of_upper (x t C d D : ℚ) (hx : x ≤ d * C) (hC : 0 ≤ C) (hd : d ≤ D)
    (hD : D * C < t) : x < t :=
  lt_of_le_of_lt (le_trans hx (mul_le_mul_of_nonneg_right hd hC)) hD

theorem not_lt_of_lower (x t C d D : ℚ) (hx : d * C ≤ x) (hC : 0 ≤ C) (hd : D ≤ d)
    (hD : t ≤ D * C) : ¬ x < t :=
  not_lt.2 (le_trans hD (le_trans (mul_le_mul_of_nonneg_right hd hC) hx))

/-- The `double` comparison of lines 92 and 106 decides `d < 900000000` on tick counts. -/
theorem duration_sec_lt_lifespan (d : Int) :
    (duration_sec d).lt SEGMENT_LIFESPAN_count = true ↔ d < 900000000 := by
  have t : SEGMENT_LIFESPAN_count.val = 8106479329266893 / 9007199254740992 := by
    rw [SEGMENT_LIFESPAN_count_eq]
    norm_num [Double.val]
  constructor
  · intro hlt
    by_contra hc
    rcases eq_or_lt_of_le (not_lt.1 hc) with he | hgt
    · rw [← he] at hlt
      revert hlt
      decide
    · rw [Double.lt_iff, t] at hlt
      obtain ⟨-, l, -⟩ := duration_sec_pos d (by omega)
      have hd : (900000001 : ℚ) ≤ d := by exact_mod_cast (show (900000001 : ℤ) ≤ d by omega)
      exact not_lt_of_lower _ _ _ _ _ l (by norm_num) hd (by norm_num) hlt
  · intro hd
    rw [Double.lt_iff, t]
    rcases le_or_lt d 0 with h0 | h0
    · exact lt_of_le_of_lt (duration_sec_nonpos d h0) (by norm_num)
    · obtain ⟨-, -, u⟩ := duration_sec_pos d h0
      have hd' : (d : ℚ) ≤ 899999999 := by exact_mod_cast (show d ≤ (899999999 : ℤ) by omega)
      exact lt_of_upper _ _ _ _ _ u (by norm_num) hd' (by norm_num)

/-- The test `age_ratio < 0.33` of line 110 on tick counts: true up to and including 297000000. -/
theorem age_ratio_lt_033 (d : Int) : ((duration_sec d).div SEGMENT_LIFESPAN_count).lt (double_of_frac 33 100) = true ↔ d ≤ 297000000 := by
  have t : (double_of_frac 33 100).val = 5944751508129055 / 18014398509481984 := by
    rw [double_033]
    norm_num [Double.val]
  constructor
  · intro hlt
    by_contra hc
    rw [Double.lt_iff, t] at hlt
    obtain ⟨l, -⟩ := age_ratio_pos d (by omega)
    have hd : (297000001 : ℚ) ≤ d := by exact_mod_cast (show (297000001 : ℤ) ≤ d by omega)
    exact not_lt_of_lower _ _ _ _ _ l (by norm_num) hd (by norm_num) hlt
  · intro hd
    rcases eq_or_lt_of_le hd with he | hlt
    · rw [he]
      decide
    · rw [Double.lt_iff, t]
      rcases le_or_lt d 0 with h0 | h0
      · exact lt_of_le_of_lt (age_ratio_nonpos d h0) (by norm_num)
      · obtain ⟨-, u⟩ := age_ratio_pos d h0
        have hd' : (d : ℚ) ≤ 296999999 := by exact_mod_cast (show d ≤ (296999999 : ℤ) by omega)
        exact lt_of_upper _ _ _ _ _ u (by norm_num) hd' (by norm_num)

/-- The test `age_ratio < 0.66` of line 113 on tick counts: true up to and including 594000000. -/
theorem age_ratio_lt_066 (d : Int) : ((duration_sec d).div SEGMENT_LIFESPAN_count).lt (double_of_frac 66 100) = true ↔ d ≤ 594000000 := by
  have t : (double_of_frac 66 100).val = 5944751508129055 / 9007199254740992 := by
    rw [double_066]
    norm_num [Double.val]
  constructor
  · intro hlt
    by_contra hc
    rw [Double.lt_iff, t] at hlt
    obtain ⟨l, -⟩ := age_ratio_pos d (by omega)
    have hd : (594000001 : ℚ) ≤ d := by exact_mod_cast (show (594000001 : ℤ) ≤ d by omega)
    exact not_lt_of_lower _ _ _ _ _ l (by norm_num) hd (by norm_num) hlt
  · intro hd
    rcases eq_or_lt_of_le hd with he | hlt
    · rw [he]
      decide
    · rw [Double.lt_iff, t]
      rcases le_or_lt d 0 with h0 | h0
      · exact lt_of_le_of_lt (age_ratio_nonpos d h0) (by norm_num)
      · obtain ⟨-, u⟩ := age_ratio_pos d h0
        have hd' : (d : ℚ) ≤ 593999999 := by exact_mod_cast (show d ≤ (593999999 : ℤ) by omega)
        exact lt_of_upper _ _ _ _ _ u (by norm_num) hd' (by norm_num)

/-! ## C8 -/

/-- C8, the claim at the two boundary ages.  A segment aged exactly 0.33 x lifespan (297000000
ticks, exact ratio 33/100) has the computed ratio `5944751508129054 * 2^-54`
(0.32999999999999996), below the `double` of `0.33`, which is `5944751508129055 * 2^-54`; it is
written as `#`, not as `+`.  A segment aged exactly 0.66 x lifespan (594000000 ticks, exact ratio
66/100) is written as `+` in the bright colour, not as `*` in gray. -/
theorem C8_boundary_age_in_lower_tier :
    spec_age_ratio 297000000 ⟨10, 5, 0⟩ = 33 / 100 ∧
      age_ratio 297000000 ⟨10, 5, 0⟩ = ⟨5944751508129054, -54⟩ ∧
      double_of_frac 33 100 = ⟨5944751508129055, -54⟩ ∧
      draw_segment "\x1b[93m" 297000000 ⟨10, 5, 0⟩ = some ⟨"\x1b[93m", 5, 10, '#'⟩ ∧
      draw_segment "\x1b[93m" 297000000 ⟨10, 5, 0⟩ ≠ some ⟨"\x1b[93m", 5, 10, '+'⟩ ∧
      spec_age_ratio 594000000 ⟨10, 5, 0⟩ = 66 / 100 ∧
      draw_segment "\x1b[93m" 594000000 ⟨10, 5, 0⟩ = some ⟨"\x1b[93m", 5, 10, '+'⟩ ∧
      draw_segment "\x1b[93m" 594000000 ⟨10, 5, 0⟩ ≠ some ⟨"\x1b[90m", 5, 10, '*'⟩ := by
  have h1 : draw_segment "\x1b[93m" 297000000 ⟨10, 5, 0⟩ = some ⟨"\x1b[93m", 5, 10, '#'⟩ := by
    unfold draw_segment
    rw [if_pos (by decide), if_pos (by decide)]
    rfl
  have h2 : draw_segment "\x1b[93m" 594000000 ⟨10, 5, 0⟩ = some ⟨"\x1b[93m", 5, 10, '+'⟩ := by
    unfold draw_segment
    rw [if_pos (by decide), if_neg (by decide), if_pos (by decide)]
    rfl
  refine ⟨?_, by decide, by decide, h1, ?_, ?_, h2, ?_⟩
  · norm_num [spec_age_ratio, SEGMENT_LIFESPAN]
  · rw [h1]; decide
  · norm_num [spec_age_ratio, SEGMENT_LIFESPAN]
  · rw [h2]; decide

/-- C8 as amended: the age-to-glyph mapping of `draw`, for every age in clock ticks.  A segment at
least `SEGMENT_LIFESPAN` old is not drawn; otherwise an exact ratio below 0.33, or the age of
exactly 0.33 x lifespan, gives `#` in the bright colour; failing that an exact ratio below 0.66,
or the age of exactly 0.66 x lifespan, gives `+` in the bright colour; every other age gives `*`
in the fixed gray.  The two boundary ages fall in the lower tier because the ratio is computed in
`double`. -/
theorem C8_age_to_glyph (bright_color : String) (current_time : Int)
    (seg : LightningSegment) :
    draw_segment bright_color current_time seg =
      if SEGMENT_LIFESPAN ≤ current_time - seg.creation_time then none
      else if spec_age_ratio current_time seg < 33 / 100 ∨
          current_time - seg.creation_time = 297000000 then
        some ⟨bright_color, seg.y, seg.x, '#'⟩
      else if spec_age_ratio current_time seg < 66 / 100 ∨
          current_time - seg.creation_time = 594000000 then
        some ⟨bright_color, seg.y, seg.x, '+'⟩
      else some ⟨"\x1b[90m", seg.y, seg.x, '*'⟩ := by
  have r33 : spec_age_ratio current_time seg < 33 / 100 ↔
      current_time - seg.creation_time < 297000000 := by
    unfold spec_age_ratio SEGMENT_LIFESPAN
    rw [div_lt_iff₀ (by norm_num)]
    norm_num
    exact_mod_cast Iff.rfl
  have r66 : spec_age_ratio current_time seg < 66 / 100 ↔
      current_time - seg.creation_time < 594000000 := by
    unfold spec_age_ratio SEGMENT_LIFESPAN
    rw [div_lt_iff₀ (by norm_num)]
    norm_num
    exact_mod_cast Iff.rfl
  unfold draw_segment age_ratio
  simp only [duration_sec_lt_lifespan, age_ratio_lt_033, age_ratio_lt_066, r33, r66,
    SEGMENT_LIFESPAN]
  split_ifs <;> first | rfl | omega

/-! ## C9 -/

/-- C9, the code at the failing input: start-up on an 80 x 24 terminal, then a resize to 20 x 24
and a spawn in that frame.  The bolt is constructed for width 20 with origin row 1, but its origin
column 60 is drawn from the range `[20, 60]` of the start-up width, outside `[20/4, 3*20/4]`. -/
theorem C9_spawn_range_is_stale :
    (handle_resize (some (20, 24)) (main_setup 80 24 100)).width = 20 ∧
      (spawn_step (handle_resize (some (20, 24)) (main_setup 80 24 100))
          world_spawn).1.active_bolts.map
        (fun b => (b.max_x, b.segments.map (fun g => (g.x, g.y)))) = [(20, [(60, 1)])] ∧
      ¬ ((60 : Int) ≤ Int.tdiv (3 * 20) 4) := by
  refine ⟨rfl, ?_, by decide⟩
  have h : (uniform_real_distribution 0 100 world_spawn).1 < 100 := spawn_draw_lt world_spawn
  unfold spawn_step
  dsimp only
  rw [show (handle_resize (some (20, 24)) (main_setup 80 24 100)).lightning_chance = 100 from rfl,
    if_pos h]
  rfl

/-! ## C10 -/

/-- C10, as stated, fails: on a grid of height 5 the fork length is drawn from `[0, 1]` and the
draw with raw output 50 gives length 0; and for height -3 the range `[0, -1]` is empty, so no
length lies in it. -/
theorem C10_fork_length_zero :
    ¬ (Int.tdiv 5 6 ≤ (len_dist 5 world_calm).1 ∧ (len_dist 5 world_calm).1 ≤ Int.tdiv 5 3 ∧
        1 ≤ (len_dist 5 world_calm).1) ∧
      ¬ (Int.tdiv (-3) 6 ≤ (len_dist (-3) world_calm).1 ∧
        (len_dist (-3) world_calm).1 ≤ Int.tdiv (-3) 3) := by
  decide

theorem uniform_int_distribution_range (a b : Int) (w : World) (h : a ≤ b) :
    a ≤ (uniform_int_distribution a b w).1 ∧ (uniform_int_distribution a b w).1 ≤ b := by
  unfold uniform_int_distribution
  dsimp only
  have hpos : 0 < (b - a + 1).toNat := by omega
  have h1 := Nat.mod_lt (w.generator 0) hpos
  omega

/-- C10, amended: for every grid height `height ≥ 0` and every generator state the fork length
chosen by `addFork` lies in `[height/6, height/3]` (truncating division); it is at least 1 when
`height ≥ 6`. -/
theorem C10_fork_length_range (height : Int) (w : World) (h : 0 ≤ height) :
    Int.tdiv height 6 ≤ (len_dist height w).1 ∧ (len_dist height w).1 ≤ Int.tdiv height 3 ∧
      (1 ≤ (len_dist height w).1 ∨ height < 6) := by
  have e6 : Int.tdiv height 6 = height / 6 := Int.tdiv_eq_ediv h (by norm_num)
  have e3 : Int.tdiv height 3 = height / 3 := Int.tdiv_eq_ediv h (by norm_num)
  have hr := uniform_int_distribution_range (Int.tdiv height 6) (Int.tdiv height 3) w
    (by rw [e6, e3]; omega)
  refine ⟨hr.1, hr.2, ?_⟩
  by_cases h6 : height < 6
  · exact Or.inr h6
  · left
    have := hr.1
    rw [e6] at this
    unfold len_dist
    omega

/-- C10 witness: the fork length on a grid of height 24. -/
theorem C10_fork_length_range_witness :
    (0 : Int) ≤ 24 ∧
      Int.tdiv 24 6 ≤ (len_dist 24 world_count).1 ∧
      (len_dist 24 world_count).1 ≤ Int.tdiv 24 3 ∧
      (1 ≤ (len_dist 24 world_count).1 ∨ (24 : Int) < 6) :=
  ⟨by decide, C10_fork_length_range 24 world_count (by decide)⟩

/-! ## The two outcomes of a due growth step -/

theorem getLast_of_getLast? {l : List LightningSegment} {last : LightningSegment}
    (h : l.getLast? = some last) (hne : l ≠ []) : l.getLast hne = last := by
  rw [List.getLast?_eq_getLast l hne] at h
  exact Option.some.inj h

theorem ne_nil_of_getLast? {l : List LightningSegment} {last : LightningSegment}
    (h : l.getLast? = some last) : l ≠ [] := by
  intro e
  rw [e] at h
  simp at h

/-- A due growth step of a growing bolt that holds fewer than `target_length` segments, the last
of them above row `max_y - 1`: the trunk segment is pushed and, if the fork check succeeds,
`addFork` is run from `last`. -/
theorem grow_extend (b : LightningBolt) (t : Int) (w : World) (last : LightningSegment)
    (hg : b.is_growing = true) (hd : t - b.last_growth_time > LIGHTNING_GROWTH_DELAY)
    (hlast : b.segments.getLast? = some last) (hlen : b.segments.length < b.target_length)
    (hy : last.y < b.max_y - 1) :
    grow b t w =
      if (uniform_int_distribution 0 100 (uniform_int_distribution (-1) 1 w).2).1 < FORK_CHANCE
      then
        ({ b with
            last_growth_time := t,
            segments := (addFork b.max_x b.max_y last (b.segments ++ [trunk_segment b last t w])
              (uniform_int_distribution 0 100 (uniform_int_distribution (-1) 1 w).2).2).1 },
          (addFork b.max_x b.max_y last (b.segments ++ [trunk_segment b last t w])
            (uniform_int_distribution 0 100 (uniform_int_distribution (-1) 1 w).2).2).2)
      else
        ({ b with last_growth_time := t, segments := b.segments ++ [trunk_segment b last t w] },
          (uniform_int_distribution 0 100 (uniform_int_distribution (-1) 1 w).2).2) := by
  have hne := ne_nil_of_getLast? hlast
  have h2 : ¬ (b.segments = [] ∨ b.segments.length ≥ b.target_length) := by
    rintro (h | h)
    · exact hne h
    · omega
  unfold grow
  dsimp only
  rw [if_pos ⟨hg, hd⟩, dif_neg h2, getLast_of_getLast? hlast hne, if_neg (by omega)]
  rfl

/-- A due growth step of a growing bolt that holds no segment, or at least `target_length`
segments, or whose last segment has reached row `max_y - 1`: the bolt stops growing and nothing is
appended. -/
theorem grow_stop (b : LightningBolt) (t : Int) (w : World)
    (hg : b.is_growing = true) (hd : t - b.last_growth_time > LIGHTNING_GROWTH_DELAY)
    (h : b.segments = [] ∨ b.segments.length ≥ b.target_length ∨
      ∃ last, b.segments.getLast? = some last ∧ last.y ≥ b.max_y - 1) :
    grow b t w = ({ b with last_growth_time := t, is_growing := false }, w) := by
  unfold grow
  dsimp only
  rw [if_pos ⟨hg, hd⟩]
  by_cases h2 : b.segments = [] ∨ b.segments.length ≥ b.target_length
  · rw [dif_pos h2]
  · rw [dif_neg h2]
    rcases h with h | h | ⟨last, hlast, hy⟩
    · exact absurd (Or.inl h) h2
    · exact absurd (Or.inr h) h2
    · rw [getLast_of_getLast? hlast (fun e => h2 (Or.inl e)), if_pos hy]

/-! ## C11 -/

/-- C14, as stated, fails: the growth test is `elapsed > LIGHTNING_GROWTH_DELAY`, so an `update`
exactly 5 ms (5000000 ticks) after the last growth performs no growth step; the last-growth time
stamp of the scenario bolt stays 0 instead of becoming 5000000. -/
theorem C14_exactly_five_ms :
    (world_at 5000000).clock 0 - bolt_scenario.last_growth_time = 5000000 ∧
      ¬ ((update bolt_scenario (world_at 5000000)).2.1.last_growth_time = 5000000) ∧
      (update bolt_scenario (world_at 5000000)).2.1 = bolt_scenario := by
  have e : (update bolt_scenario (world_at 5000000)).2.1 = bolt_scenario := by
    rw [update_bolt_eq, grow_not_due _ _ _ (by decide)]
  refine ⟨by decide, ?_, e⟩
  rw [e]
  decide

/-- C14, amended: for every growing bolt, an `update` call at which the time elapsed since the last
growth exceeds 5 ms (5000000 ticks) performs a growth step: it sets the last-growth time stamp to
the current reading and either stops growing without appending, or extends the trunk by a segment
one row below the last one and keeps growing; an `update` with elapsed time of 5 ms or less leaves
the bolt (segments, flag and time stamp) unchanged. -/
theorem C14_growth_pacing (b : LightningBolt) (w : World) (hg : b.is_growing = true) :
    if w.clock 0 - b.last_growth_time > 5000000 then
      (update b w).2.1.last_growth_time = w.clock 0 ∧
        (((update b w).2.1.is_growing = false ∧ (update b w).2.1.segments = b.segments) ∨
          ∃ last seg rest, b.segments.getLast? = some last ∧
            (update b w).2.1.segments = b.segments ++ seg :: rest ∧ seg.y = last.y + 1 ∧
            (update b w).2.1.is_growing = true)
    else (update b w).2.1 = b := by
  rw [update_bolt_eq]
  split_ifs with hd
  · have hd' : w.clock 0 - b.last_growth_time > LIGHTNING_GROWTH_DELAY := hd
    by_cases hs : b.segments = [] ∨ b.segments.length ≥ b.target_length
    · rw [grow_stop b _ _ hg hd' (by tauto)]
      exact ⟨rfl, Or.inl ⟨rfl, rfl⟩⟩
    · have hne : b.segments ≠ [] := fun e => hs (Or.inl e)
      have hlast := List.getLast?_eq_getLast b.segments hne
      by_cases hy : (b.segments.getLast hne).y ≥ b.max_y - 1
      · rw [grow_stop b _ _ hg hd' (Or.inr (Or.inr ⟨_, hlast, hy⟩))]
        exact ⟨rfl, Or.inl ⟨rfl, rfl⟩⟩
      · rw [grow_extend b _ _ _ hg hd' hlast (by omega) (by omega)]
        split_ifs
        · obtain ⟨l, j, e, -, -⟩ := addFork_outcome b.max_x b.max_y (b.segments.getLast hne)
            (b.segments ++ [trunk_segment b (b.segments.getLast hne) (w.clock 0) (now w).2])
            (uniform_int_distribution 0 100 (uniform_int_distribution (-1) 1 (now w).2).2).2
          refine ⟨rfl, Or.inr ⟨_, trunk_segment b (b.segments.getLast hne) (w.clock 0) (now w).2,
            l, hlast, ?_, rfl, hg⟩⟩
          dsimp only
          rw [e, List.append_assoc]
          rfl
        · exact ⟨rfl, Or.inr ⟨_, _, [], hlast, rfl, rfl, hg⟩⟩
  · rw [grow_not_due b _ _ hd]

/-- C14 witness: the scenario bolt updated 6 ms after construction. -/
theorem C14_growth_pacing_witness :
    bolt_scenario.is_growing = true ∧
      (if world_calm.clock 1 - bolt_scenario.last_growth_time > 5000000 then
        (update bolt_scenario (now world_calm).2).2.1.last_growth_time = world_calm.clock 1 ∧
          (((update bolt_scenario (now world_calm).2).2.1.is_growing = false ∧
              (update bolt_scenario (now world_calm).2).2.1.segments = bolt_scenario.segments) ∨
            ∃ last seg rest, bolt_scenario.segments.getLast? = some last ∧
              (update bolt_scenario (now world_calm).2).2.1.segments =
                bolt_scenario.segments ++ seg :: rest ∧ seg.y = last.y + 1 ∧
              (update bolt_scenario (now world_calm).2).2.1.is_growing = true)
      else (update bolt_scenario (now world_calm).2).2.1 = bolt_scenario) :=
  ⟨rfl, C14_growth_pacing bolt_scenario (now world_calm).2 rfl⟩

/-! ## The first segment of a fork -/

theorem addFork_loop_outcome (max_x max_y fork_len i : Int) (sp : LightningSegment)
    (segs : List LightningSegment) (w : World) :
    ∃ l j, ForkOutcome max_x max_y sp.y segs w
      (addFork_loop max_x max_y fork_len i sp segs w) l j :=
  (addFork_outcome_aux max_x max_y _).1 fork_len i sp segs w le_rfl

/-- What `addFork` appends is empty or starts with the segment of the first loop iteration, one
row below `start_point`. -/
theorem addFork_head (max_x max_y : Int) (sp : LightningSegment)
    (segs : List LightningSegment) (w : World) :
    (addFork max_x max_y sp segs w).1 = segs ∨
      ∃ rest, (addFork max_x max_y sp segs w).1 =
        segs ++ fork_first max_x sp (len_dist max_y w).2 :: rest := by
  rw [addFork, addFork_loop]
  split_ifs with hc
  · right
    dsimp only
    obtain ⟨l2, j2, e2, -, -⟩ := addFork_loop_outcome max_x max_y (len_dist max_y w).1 (0 + 1)
      (fork_first max_x sp (len_dist max_y w).2)
      (if (uniform_int_distribution 0 100 (now (uniform_int_distribution (-1) 1
          (len_dist max_y w).2).2).2).1 < SUBFORK_CHANCE then
        addFork max_x max_y (fork_first max_x sp (len_dist max_y w).2)
          (segs ++ [fork_first max_x sp (len_dist max_y w).2])
          (uniform_int_distribution 0 100 (now (uniform_int_distribution (-1) 1
            (len_dist max_y w).2).2).2).2
        else (segs ++ [fork_first max_x sp (len_dist max_y w).2],
          (uniform_int_distribution 0 100 (now (uniform_int_distribution (-1) 1
            (len_dist max_y w).2).2).2).2)).1
      (if (uniform_int_distribution 0 100 (now (uniform_int_distribution (-1) 1
          (len_dist max_y w).2).2).2).1 < SUBFORK_CHANCE then
        addFork max_x max_y (fork_first max_x sp (len_dist max_y w).2)
          (segs ++ [fork_first max_x sp (len_dist max_y w).2])
          (uniform_int_distribution 0 100 (now (uniform_int_distribution (-1) 1
            (len_dist max_y w).2).2).2).2
        else (segs ++ [fork_first max_x sp (len_dist max_y w).2],
          (uniform_int_distribution 0 100 (now (uniform_int_distribution (-1) 1
            (len_dist max_y w).2).2).2).2)).2
    have e1 : ∃ l1, (if (uniform_int_distribution 0 100 (now (uniform_int_distribution (-1) 1
          (len_dist max_y w).2).2).2).1 < SUBFORK_CHANCE then
        addFork max_x max_y (fork_first max_x sp (len_dist max_y w).2)
          (segs ++ [fork_first max_x sp (len_dist max_y w).2])
          (uniform_int_distribution 0 100 (now (uniform_int_distribution (-1) 1
            (len_dist max_y w).2).2).2).2
        else (segs ++ [fork_first max_x sp (len_dist max_y w).2],
          (uniform_int_distribution 0 100 (now (uniform_int_distribution (-1) 1
            (len_dist max_y w).2).2).2).2)).1 =
        (segs ++ [fork_first max_x sp (len_dist max_y w).2]) ++ l1 := by
      split_ifs
      · obtain ⟨l1, j1, e1, -, -⟩ := addFork_outcome max_x max_y
          (fork_first max_x sp (len_dist max_y w).2)
          (segs ++ [fork_first max_x sp (len_dist max_y w).2])
          (uniform_int_distribution 0 100 (now (uniform_int_distribution (-1) 1
            (len_dist max_y w).2).2).2).2
        exact ⟨l1, e1⟩
      · exact ⟨[], by simp⟩
    obtain ⟨l1, e1⟩ := e1
    refine ⟨l1 ++ l2, ?_⟩
    exact e2.trans (by rw [e1]; simp)
  · exact Or.inl rfl

/-- A growth step appends nothing, or it extends the trunk from the last segment `last` by
`trunk_segment` and then appends the segments `forks` of a fork started from `last`. -/
theorem grow_cases (b : LightningBolt) (t : Int) (w : World) :
    (grow b t w).1.segments = b.segments ∨
      ∃ last forks, b.is_growing = true ∧ t - b.last_growth_time > LIGHTNING_GROWTH_DELAY ∧
        b.segments.getLast? = some last ∧ b.segments.length < b.target_length ∧
        last.y < b.max_y - 1 ∧
        (grow b t w).1.segments = b.segments ++ trunk_segment b last t w :: forks ∧
        (grow b t w).1.is_growing = true ∧
        (forks = [] ∨ ∃ rest,
          forks = fork_first b.max_x last (len_dist b.max_y (fork_check w).2).2 :: rest) ∧
        ∀ s ∈ forks, ForkSegment b.max_x b.max_y last.y s := by
  by_cases hgd : b.is_growing = true ∧ t - b.last_growth_time > LIGHTNING_GROWTH_DELAY
  · obtain ⟨hg, hd⟩ := hgd
    by_cases hs : b.segments = [] ∨ b.segments.length ≥ b.target_length
    · rw [grow_stop b _ _ hg hd (by tauto)]
      exact Or.inl rfl
    · have hne : b.segments ≠ [] := fun e => hs (Or.inl e)
      have hlast := List.getLast?_eq_getLast b.segments hne
      by_cases hy : (b.segments.getLast hne).y ≥ b.max_y - 1
      · rw [grow_stop b _ _ hg hd (Or.inr (Or.inr ⟨_, hlast, hy⟩))]
        exact Or.inl rfl
      · right
        have hlen : b.segments.length < b.target_length := by omega
        have hy' : (b.segments.getLast hne).y < b.max_y - 1 := by omega
        rw [grow_extend b _ _ _ hg hd hlast hlen hy']
        split_ifs with hf
        · obtain ⟨l, j, e, -, m⟩ := addFork_outcome b.max_x b.max_y (b.segments.getLast hne)
            (b.segments ++ [trunk_segment b (b.segments.getLast hne) t w]) (fork_check w).2
          have e' : (addFork b.max_x b.max_y (b.segments.getLast hne)
              (b.segments ++ [trunk_segment b (b.segments.getLast hne) t w])
              (fork_check w).2).1 =
              b.segments ++ trunk_segment b (b.segments.getLast hne) t w :: l := by
            rw [e, List.append_assoc]; rfl
          refine ⟨_, l, hg, hd, hlast, hlen, hy', e', hg, ?_, fun s hs => (m s hs).1⟩
          rcases addFork_head b.max_x b.max_y (b.segments.getLast hne)
            (b.segments ++ [trunk_segment b (b.segments.getLast hne) t w]) (fork_check w).2
            with h | ⟨rest, h⟩
          · left
            rw [e] at h
            simpa using h
          · right
            refine ⟨rest, ?_⟩
            rw [e] at h
            exact List.append_cancel_left h
        · exact ⟨_, [], hg, hd, hlast, hlen, hy', rfl, hg, Or.inl rfl, by simp⟩
  · left
    unfold grow
    rw [if_neg hgd]

/-! ## C15 -/

/-- The growth step of `bolt_small` under `world_fork`: the trunk segment (3, 2) and then one fork
segment, also at (3, 2). -/
theorem update_bolt_small :
    (update bolt_small world_fork).2.1.segments =
      [⟨3, 1, 0⟩, ⟨3, 2, 6000000⟩, ⟨3, 2, 12000000⟩] := by
  rw [update_bolt_eq, grow_extend bolt_small _ _ ⟨3, 1, 0⟩ rfl (by decide) rfl (by decide)
    (by decide), if_pos (by decide)]
  dsimp only
  rw [addFork, addFork_loop, if_pos (by decide)]
  dsimp only
  rw [if_neg (by decide), addFork_loop, if_neg (by decide)]
  decide

/-- C15, as stated, fails: in the growth step of `bolt_small` under `world_fork` the trunk segment
is (3, 2) and the first segment appended by `addFork` is also on row 2, not on row 3. -/
theorem C15_fork_row_equals_trunk_row :
    ¬ ∀ trunk first rest,
        (update bolt_small world_fork).2.1.segments = bolt_small.segments ++ trunk :: first :: rest →
        first.y = trunk.y + 1 := by
  intro h
  have := h ⟨3, 2, 6000000⟩ ⟨3, 2, 12000000⟩ [] update_bolt_small
  exact absurd this (by decide)

/-- C15, amended: when a growth step appends a trunk segment `trunk` and then a fork whose first
segment is `first`, the fork starts from the segment `last` the trunk grew from: `first` has the
row of `trunk` (the row of `last` plus 1) and a column within 1 of the column of `last`, clamped to
`[1, width-1]`. -/
theorem C15_fork_starts_from_previous (b : LightningBolt) (w : World)
    (trunk first : LightningSegment) (rest : List LightningSegment)
    (h : (update b w).2.1.segments = b.segments ++ trunk :: first :: rest) :
    ∃ last d, b.segments.getLast? = some last ∧ trunk.y = last.y + 1 ∧ first.y = trunk.y ∧
      -1 ≤ d ∧ d ≤ 1 ∧ first.x = max 1 (min (b.max_x - 1) (last.x + d)) := by
  rw [update_bolt_eq] at h
  rcases grow_cases b (w.clock 0) (now w).2 with h1 | ⟨last, forks, -, -, hlast, -, -, e, -, hf, -⟩
  · rw [h1] at h
    have := congrArg List.length h
    simp at this
  · rw [e] at h
    have h2 := List.append_cancel_left h
    rw [List.cons.injEq] at h2
    obtain ⟨ht, hfk⟩ := h2
    rcases hf with hf | ⟨rest1, hf⟩
    · rw [hf] at hfk
      simp at hfk
    · rw [hf, List.cons.injEq] at hfk
      have hr := uniform_int_distribution_range (-1) 1
        (len_dist b.max_y (fork_check (now w).2).2).2 (by decide)
      refine ⟨last, _, hlast, ?_, ?_, hr.1, hr.2, ?_⟩
      · rw [← ht]; rfl
      · rw [← ht, ← hfk.1]; rfl
      · rw [← hfk.1]; rfl

/-- C15 witness: the growth step of `bolt_small` under `world_fork`. -/
theorem C15_fork_starts_from_previous_witness :
    (update bolt_small world_fork).2.1.segments =
        bolt_small.segments ++ ⟨3, 2, 6000000⟩ :: ⟨3, 2, 12000000⟩ :: [] ∧
      ∃ last d, bolt_small.segments.getLast? = some last ∧
        (⟨3, 2, 6000000⟩ : LightningSegment).y = last.y + 1 ∧
        (⟨3, 2, 12000000⟩ : LightningSegment).y = (⟨3, 2, 6000000⟩ : LightningSegment).y ∧
        -1 ≤ d ∧ d ≤ 1 ∧
        (⟨3, 2, 12000000⟩ : LightningSegment).x = max 1 (min (bolt_small.max_x - 1) (last.x + d)) :=
  ⟨update_bolt_small,
    C15_fork_starts_from_previous bolt_small world_fork ⟨3, 2, 6000000⟩ ⟨3, 2, 12000000⟩ []
      update_bolt_small⟩

/-! ## C20 -/

theorem getLast?_mem {l : List LightningSegment} {last : LightningSegment}
    (h : l.getLast? = some last) : last ∈ l := by
  have hne := ne_nil_of_getLast? h
  rw [← getLast_of_getLast? h hne]
  exact List.getLast_mem hne

/-- C20: for every growing bolt whose segments all have columns in `[1, width-1]` and whose list of
segments ends with `last` (a trunk segment or the tip of a fork), a due growth step (1) that finds
fewer than `target_length` segments and `last` above row `height-1` appends first a segment on the
row of `last` plus 1 whose column differs from that of `last` by at most 1, and (2) that finds
`last` on row `height-1` or beyond appends nothing and stops the growth, whatever the number of
segments. -/
theorem C20_growth_continues_from_last (b : LightningBolt) (w : World) (last : LightningSegment)
    (hg : b.is_growing = true) (hd : w.clock 0 - b.last_growth_time > 5000000)
    (hcol : ∀ s ∈ b.segments, 1 ≤ s.x ∧ s.x ≤ b.max_x - 1)
    (hlast : b.segments.getLast? = some last) :
    (last.y < b.max_y - 1 → b.segments.length < b.target_length →
      ∃ seg rest, (update b w).2.1.segments = b.segments ++ seg :: rest ∧
        seg.y = last.y + 1 ∧ last.x - 1 ≤ seg.x ∧ seg.x ≤ last.x + 1) ∧
    (last.y ≥ b.max_y - 1 →
      (update b w).2.1.segments = b.segments ∧ (update b w).2.1.is_growing = false) := by
  have hd' : w.clock 0 - b.last_growth_time > LIGHTNING_GROWTH_DELAY := hd
  rw [update_bolt_eq]
  constructor
  · intro hy hlen
    have hx := hcol last (getLast?_mem hlast)
    have hr := uniform_int_distribution_range (-1) 1 (now w).2 (by decide)
    have hseg : ∃ rest, (grow b (w.clock 0) (now w).2).1.segments =
        b.segments ++ trunk_segment b last (w.clock 0) (now w).2 :: rest := by
      rw [grow_extend b _ _ last hg hd' hlast hlen hy]
      split_ifs
      · obtain ⟨l, j, e, -, -⟩ := addFork_outcome b.max_x b.max_y last
          (b.segments ++ [trunk_segment b last (w.clock 0) (now w).2]) (fork_check (now w).2).2
        exact ⟨l, by
          show (addFork b.max_x b.max_y last _ (fork_check (now w).2).2).1 = _
          rw [e, List.append_assoc]; rfl⟩
      · exact ⟨[], rfl⟩
    obtain ⟨rest, e⟩ := hseg
    refine ⟨_, rest, e, rfl, ?_, ?_⟩
    · show last.x - 1 ≤ max 1 (min (b.max_x - 1) (last.x +
        (uniform_int_distribution (-1) 1 (now w).2).1))
      omega
    · show max 1 (min (b.max_x - 1) (last.x +
        (uniform_int_distribution (-1) 1 (now w).2).1)) ≤ last.x + 1
      omega
  · intro hy
    rw [grow_stop b _ _ hg hd' (Or.inr (Or.inr ⟨last, hlast, hy⟩))]
    exact ⟨rfl, rfl⟩

/-- C20 witness: a growth step of a bolt whose last segment (42, 3) is the tip of a fork. -/
theorem C20_growth_continues_from_last_witness :
    bolt_forked.is_growing = true ∧
      (world_at 30000000).clock 0 - bolt_forked.last_growth_time > 5000000 ∧
      (∀ s ∈ bolt_forked.segments, 1 ≤ s.x ∧ s.x ≤ bolt_forked.max_x - 1) ∧
      bolt_forked.segments.getLast? = some ⟨42, 3, 18000000⟩ ∧
      ((3 : Int) < bolt_forked.max_y - 1 → bolt_forked.segments.length < bolt_forked.target_length →
        ∃ seg rest, (update bolt_forked (world_at 30000000)).2.1.segments =
            bolt_forked.segments ++ seg :: rest ∧
          seg.y = 3 + 1 ∧ 42 - 1 ≤ seg.x ∧ seg.x ≤ 42 + 1) ∧
      ((3 : Int) ≥ bolt_forked.max_y - 1 →
        (update bolt_forked (world_at 30000000)).2.1.segments = bolt_forked.segments ∧
          (update bolt_forked (world_at 30000000)).2.1.is_growing = false) :=
  ⟨rfl, by decide, by decide, rfl,
    C20_growth_continues_from_last bolt_forked (world_at 30000000) ⟨42, 3, 18000000⟩ rfl
      (by decide) (by decide) rfl⟩

/-! ## Trunk segments and fork segments of a run -/

/-- A growth step appends nothing, or its first appended segment is the trunk segment grown from
the last segment and the others are those of the fork. -/
theorem appended_cases (b : LightningBolt) (t : Int) (w : World) :
    ((grow b t w).1.segments = b.segments ∧ trunk_appended b t w = [] ∧
        fork_appended b t w = []) ∨
      ∃ last, b.segments.getLast? = some last ∧ b.segments.length < b.target_length ∧
        last.y < b.max_y - 1 ∧
        (grow b t w).1.segments =
          b.segments ++ trunk_segment b last t w :: fork_appended b t w ∧
        trunk_appended b t w = [trunk_segment b last t w] ∧
        ∀ s ∈ fork_appended b t w, ForkSegment b.max_x b.max_y last.y s := by
  rcases grow_cases b t w with h | ⟨last, forks, -, -, hlast, hlen, hy, e, -, -, m⟩
  · left
    refine ⟨h, ?_, ?_⟩
    · simp [trunk_appended, h]
    · simp [fork_appended, h]
  · right
    have e1 : fork_appended b t w = forks := by
      unfold fork_appended
      rw [e, List.drop_append_eq_append_drop]
      simp
    refine ⟨last, hlast, hlen, hy, by rw [e1]; exact e, ?_, by rw [e1]; exact m⟩
    unfold trunk_appended
    rw [e]
    simp

theorem trunk_segment_forkSegment (b : LightningBolt) (last : LightningSegment) (t : Int)
    (w : World) (hy : last.y < b.max_y - 1) :
    ForkSegment b.max_x b.max_y last.y (trunk_segment b last t w) :=
  ⟨by simp [trunk_segment], by simp only [trunk_segment]; omega, ⟨_, rfl⟩⟩

/-- The segments of a run are the initial ones, the trunk segments and the fork segments; if the
run starts with at most `target_length` segments, the initial and trunk segments together never
outnumber `target_length`. -/
theorem updates_count (bw : LightningBolt × World)
    (h0 : bw.1.segments.length ≤ bw.1.target_length) (n : Nat) :
    (updates n bw).1.segments.length =
        bw.1.segments.length + (trunk_added n bw).length + (fork_added n bw).length ∧
      bw.1.segments.length + (trunk_added n bw).length ≤ bw.1.target_length := by
  induction n with
  | zero => exact ⟨by simp [updates, trunk_added, fork_added], by simpa [trunk_added] using h0⟩
  | succ n ih =>
    obtain ⟨ih1, ih2⟩ := ih
    simp only [trunk_added, fork_added, List.length_append]
    rw [updates_succ_bolt]
    rcases appended_cases (updates n bw).1 (reading n bw) (now (updates n bw).2).2 with
      ⟨h, ht, hf⟩ | ⟨last, -, hlen, -, e, ht, -⟩
    · rw [h, ht, hf]
      simp only [List.length_nil]
      omega
    · rw [e, ht]
      rw [updates_target_length] at hlen
      simp only [List.length_append, List.length_cons, List.length_nil]
      omega

theorem constructor_target_pos (start_x start_y width height : Int) (w : World)
    (h3 : 3 ≤ height) (hmax : height ≤ 2147483647) :
    1 ≤ (LightningBolt.LightningBolt start_x start_y width height w).1.target_length := by
  have e2 : Int.tdiv height 2 = height / 2 := Int.tdiv_eq_ediv (by omega) (by norm_num)
  have hr := uniform_int_distribution_range (Int.tdiv height 2) (height - 2) (now w).2
    (by rw [e2]; omega)
  show 1 ≤ size_t_of_int _
  unfold size_t_of_int
  rw [e2] at hr
  rw [e2]
  omega

/-! ## C12 -/

/-- C12: for every bolt constructed on a grid of height at least 3 (the heights for which the
range of the target length is not empty) and every number of `update` calls, the segments held are
the initial segment, the segments pushed by the trunk-growth step and the segments appended by
`addFork`; the initial segment and the trunk segments together number at most `target_length`, so
the number of segments never exceeds `target_length` plus the number appended by `addFork`. -/
theorem C12_segment_count (start_x start_y width height : Int) (w : World) (n : Nat)
    (h3 : 3 ≤ height) (hmax : height ≤ 2147483647) :
    (updates n (LightningBolt.LightningBolt start_x start_y width height w)).1.segments.length =
        1 + (trunk_added n (LightningBolt.LightningBolt start_x start_y width height w)).length +
          (fork_added n (LightningBolt.LightningBolt start_x start_y width height w)).length ∧
      1 + (trunk_added n (LightningBolt.LightningBolt start_x start_y width height w)).length ≤
        (LightningBolt.LightningBolt start_x start_y width height w).1.target_length ∧
      (updates n (LightningBolt.LightningBolt start_x start_y width height w)).1.segments.length ≤
        (LightningBolt.LightningBolt start_x start_y width height w).1.target_length +
          (fork_added n (LightningBolt.LightningBolt start_x start_y width height w)).length := by
  have hpos := constructor_target_pos start_x start_y width height w h3 hmax
  obtain ⟨h1, h2⟩ := updates_count (LightningBolt.LightningBolt start_x start_y width height w)
    hpos n
  have hl : (LightningBolt.LightningBolt start_x start_y width height w).1.segments.length = 1 :=
    rfl
  rw [hl] at h1 h2
  exact ⟨h1, h2, by omega⟩

/-- C12 witness: five updates of a bolt constructed on an 80 x 24 grid. -/
theorem C12_segment_count_witness :
    (3 : Int) ≤ 24 ∧ (24 : Int) ≤ 2147483647 ∧
      (updates 5 (LightningBolt.LightningBolt 40 1 80 24 world_count)).1.segments.length =
        1 + (trunk_added 5 (LightningBolt.LightningBolt 40 1 80 24 world_count)).length +
          (fork_added 5 (LightningBolt.LightningBolt 40 1 80 24 world_count)).length ∧
      1 + (trunk_added 5 (LightningBolt.LightningBolt 40 1 80 24 world_count)).length ≤
        (LightningBolt.LightningBolt 40 1 80 24 world_count).1.target_length ∧
      (updates 5 (LightningBolt.LightningBolt 40 1 80 24 world_count)).1.segments.length ≤
        (LightningBolt.LightningBolt 40 1 80 24 world_count).1.target_length +
          (fork_added 5 (LightningBolt.LightningBolt 40 1 80 24 world_count)).length :=
  ⟨by decide, by decide, C12_segment_count 40 1 80 24 world_count 5 (by decide) (by decide)⟩

/-! ## C18 -/

/-- Under a monotone clock the time stamps of the initial and trunk segments of a run are
non-decreasing in append order and none is later than the reading of the next call. -/
theorem trunk_times_sorted (bw : LightningBolt × World) (hm : Monotone bw.2.clock)
    (hpast : ∀ s ∈ bw.1.segments, s.creation_time ≤ bw.2.clock 0)
    (h0 : (bw.1.segments.map (fun s => s.creation_time)).Pairwise (fun a b => a ≤ b)) (n : Nat) :
    ((bw.1.segments ++ trunk_added n bw).map (fun s => s.creation_time)).Pairwise
        (fun a b => a ≤ b) ∧
      ∀ s ∈ bw.1.segments ++ trunk_added n bw, s.creation_time ≤ reading n bw := by
  induction n with
  | zero =>
    simp only [trunk_added, List.append_nil]
    exact ⟨h0, hpast⟩
  | succ n ih =>
    obtain ⟨ih1, ih2⟩ := ih
    have hmono := reading_mono bw hm hpast n
    simp only [trunk_added]
    rcases appended_cases (updates n bw).1 (reading n bw) (now (updates n bw).2).2 with
      ⟨-, ht, -⟩ | ⟨last, -, -, -, -, ht, -⟩
    · rw [ht, List.append_nil]
      exact ⟨ih1, fun s hs => le_trans (ih2 s hs) hmono⟩
    · rw [ht, ← List.append_assoc]
      constructor
      · rw [List.map_append, List.pairwise_append]
        refine ⟨ih1, by simp, ?_⟩
        intro a ha c hc
        rw [List.mem_map] at ha
        obtain ⟨s, hs, rfl⟩ := ha
        simp only [List.map_cons, List.map_nil, List.mem_singleton] at hc
        rw [hc]
        exact ih2 s hs
      · intro s hs
        rcases List.mem_append.1 hs with h | h
        · exact le_trans (ih2 s h) hmono
        · rw [List.mem_singleton] at h
          rw [h]
          exact hmono

/-- C18: under non-decreasing clock readings, for every bolt fresh from the constructor and every
number of `update` calls, the creation times of the initial segment and of the segments appended by
the trunk-growth step are non-decreasing in append order. -/
theorem C18_trunk_times_monotone (start_x start_y width height : Int) (w : World) (n : Nat)
    (hm : Monotone w.clock) :
    (((LightningBolt.LightningBolt start_x start_y width height w).1.segments ++
        trunk_added n (LightningBolt.LightningBolt start_x start_y width height w)).map
      (fun s => s.creation_time)).Pairwise (fun a b => a ≤ b) := by
  obtain ⟨hm1, hp1⟩ := constructor_clock start_x start_y width height w hm
  exact (trunk_times_sorted (LightningBolt.LightningBolt start_x start_y width height w) hm1 hp1
    (by simp [LightningBolt.LightningBolt]) n).1

theorem world_count_clock_monotone : Monotone world_count.clock := by
  intro a b hab
  have h : (a : Int) ≤ (b : Int) := by exact_mod_cast hab
  show (6000000 : Int) * a ≤ 6000000 * b
  omega

/-- C18 witness: five updates of a bolt constructed on an 80 x 24 grid under a clock advancing
6 ms per reading. -/
theorem C18_trunk_times_monotone_witness :
    Monotone world_count.clock ∧
      (((LightningBolt.LightningBolt 40 1 80 24 world_count).1.segments ++
          trunk_added 5 (LightningBolt.LightningBolt 40 1 80 24 world_count)).map
        (fun s => s.creation_time)).Pairwise (fun a b => a ≤ b) :=
  ⟨world_count_clock_monotone,
    C18_trunk_times_monotone 40 1 80 24 world_count 5 world_count_clock_monotone⟩

/-! ## C19 -/

/-- A run of `update` calls keeps the segments it found and appends segments that lie on rows
`2 .. max_y - 1` and columns `1 .. max_x - 1`, provided the bolt is at least 2 wide and the
segments found are on row 1 or below. -/
theorem updates_with_appended (ws : List World) (b : LightningBolt) (hx : 2 ≤ b.max_x)
    (hy : ∀ s ∈ b.segments, 1 ≤ s.y) :
    ∃ added, (updates_with ws b).segments = b.segments ++ added ∧
      ∀ s ∈ added, 1 ≤ s.x ∧ s.x ≤ b.max_x - 1 ∧ 2 ≤ s.y ∧ s.y ≤ b.max_y - 1 := by
  induction ws generalizing b with
  | nil => exact ⟨[], by simp [updates_with], by simp⟩
  | cons w ws ih =>
    have e1 : (update b w).2.1.max_x = b.max_x := by rw [update_bolt_eq, grow_max_x]
    have e2 : (update b w).2.1.max_y = b.max_y := by rw [update_bolt_eq, grow_max_y]
    have hstep : ∃ l, (update b w).2.1.segments = b.segments ++ l ∧
        ∀ s ∈ l, 1 ≤ s.x ∧ s.x ≤ b.max_x - 1 ∧ 2 ≤ s.y ∧ s.y ≤ b.max_y - 1 := by
      rw [update_bolt_eq]
      rcases appended_cases b (w.clock 0) (now w).2 with
        ⟨h, -, -⟩ | ⟨last, hlast, -, hly, e, -, m⟩
      · exact ⟨[], by simpa using h, by simp⟩
      · refine ⟨_, e, ?_⟩
        have hl1 := hy last (getLast?_mem hlast)
        intro s hs
        have hf : ForkSegment b.max_x b.max_y last.y s := by
          rcases List.mem_cons.1 hs with h | h
          · rw [h]; exact trunk_segment_forkSegment b last _ _ hly
          · exact m s h
        have hg := hf.inGrid hx (by omega)
        exact ⟨hg.2.2.1, hg.2.2.2, by have := hf.1; omega, hg.2.1⟩
    obtain ⟨l, el, hl⟩ := hstep
    obtain ⟨added, ea, ha⟩ := ih (update b w).2.1 (by rw [e1]; exact hx) (by
      intro s hs
      rw [el] at hs
      rcases List.mem_append.1 hs with h | h
      · exact hy s h
      · have := (hl s h).2.2.1
        omega)
    refine ⟨l ++ added, ?_, ?_⟩
    · simp only [updates_with]
      rw [ea, el, List.append_assoc]
    · intro s hs
      rcases List.mem_append.1 hs with h | h
      · exact hl s h
      · have := ha s h
        rw [e1, e2] at this
        exact this

/-- C19: for a grid at least 2 wide and a bolt started on row 1 or below (at any column, in
particular one in `[1, width-1]`), every segment appended by `update` or `addFork` (trunk, fork or
sub-fork), that is every segment after the initial one, has column in `[1, width-1]` and row in
`[2, height-1]`, so none has row `height` or more; and for a width of 1 or less the clamp of line
80 yields column 1, which is not in `[1, width-1]`. -/
theorem C19_appended_in_grid (start_x start_y width height : Int) (w : World) (ws : List World)
    (hw : 2 ≤ width) (hy : 1 ≤ start_y) :
    (∀ s ∈ ((updates_with ws
          (LightningBolt.LightningBolt start_x start_y width height w).1).segments).drop 1,
        1 ≤ s.x ∧ s.x ≤ width - 1 ∧ 2 ≤ s.y ∧ s.y ≤ height - 1 ∧ s.y < height) ∧
      ∀ (b : LightningBolt) (last : LightningSegment) (t : Int) (w1 : World), b.max_x ≤ 1 →
        (trunk_segment b last t w1).x = 1 ∧ ¬ (trunk_segment b last t w1).x ≤ b.max_x - 1 := by
  constructor
  · obtain ⟨added, e, h⟩ := updates_with_appended ws
      (LightningBolt.LightningBolt start_x start_y width height w).1 hw (by
        intro s hs
        simp only [LightningBolt.LightningBolt, List.mem_singleton] at hs
        rw [hs]
        exact hy)
    intro s hs
    rw [e] at hs
    have hs' : s ∈ added := by
      simpa [LightningBolt.LightningBolt] using hs
    have := h s hs'
    have e1 : (LightningBolt.LightningBolt start_x start_y width height w).1.max_x = width := rfl
    have e2 : (LightningBolt.LightningBolt start_x start_y width height w).1.max_y = height := rfl
    rw [e1, e2] at this
    exact ⟨this.1, this.2.1, this.2.2.1, this.2.2.2, by omega⟩
  · intro b last t w1 hb
    have e : (trunk_segment b last t w1).x = 1 := by
      simp only [trunk_segment]
      omega
    exact ⟨e, by rw [e]; omega⟩

/-- C19 witness: a bolt started at (40, 1) on an 80 x 24 grid, updated at 10, 20 and 30 ms. -/
theorem C19_appended_in_grid_witness :
    (2 : Int) ≤ 80 ∧ (1 : Int) ≤ 1 ∧
      (∀ s ∈ ((updates_with [world_at 10000000, world_at 20000000, world_at 30000000]
            (LightningBolt.LightningBolt 40 1 80 24 world_calm).1).segments).drop 1,
          1 ≤ s.x ∧ s.x ≤ 80 - 1 ∧ 2 ≤ s.y ∧ s.y ≤ 24 - 1 ∧ s.y < 24) ∧
        ∀ (b : LightningBolt) (last : LightningSegment) (t : Int) (w1 : World), b.max_x ≤ 1 →
          (trunk_segment b last t w1).x = 1 ∧ ¬ (trunk_segment b last t w1).x ≤ b.max_x - 1 :=
  ⟨by decide, by decide,
    C19_appended_in_grid 40 1 80 24 world_calm
      [world_at 10000000, world_at 20000000, world_at 30000000] (by decide) (by decide)⟩

/-! ## `addFork` with its recursive calls recorded -/

theorem addFork_traced_aux (max_x max_y : Int) (n : Nat) :
    (∀ (depth : Nat) (call_row fork_len i : Int) (sp : LightningSegment)
        (segs : List LightningSegment) (w : World),
        (max_y - 1 - sp.y).toNat ≤ n → call_row ≤ sp.y →
      (addFork_loop_traced max_x max_y depth call_row fork_len i sp segs w).1 =
          addFork_loop max_x max_y fork_len i sp segs w ∧
        ∀ c ∈ (addFork_loop_traced max_x max_y depth call_row fork_len i sp segs w).2,
          c.parent_row < c.start_row ∧ c.depth ≤ depth + (max_y - 1 - sp.y).toNat) ∧
    (∀ (depth : Nat) (sp : LightningSegment) (segs : List LightningSegment) (w : World),
        (max_y - 1 - sp.y).toNat ≤ n →
      (addFork_traced max_x max_y depth sp segs w).1 = addFork max_x max_y sp segs w ∧
        ∀ c ∈ (addFork_traced max_x max_y depth sp segs w).2,
          c.parent_row < c.start_row ∧ c.depth ≤ depth + (max_y - 1 - sp.y).toNat) := by
  induction n with
  | zero =>
    have hloop : ∀ (depth : Nat) (call_row fork_len i : Int) (sp : LightningSegment)
        (segs : List LightningSegment) (w : World),
        (max_y - 1 - sp.y).toNat ≤ 0 → call_row ≤ sp.y →
        (addFork_loop_traced max_x max_y depth call_row fork_len i sp segs w).1 =
            addFork_loop max_x max_y fork_len i sp segs w ∧
          ∀ c ∈ (addFork_loop_traced max_x max_y depth call_row fork_len i sp segs w).2,
            c.parent_row < c.start_row ∧ c.depth ≤ depth + (max_y - 1 - sp.y).toNat := by
      intro depth call_row fork_len i sp segs w hn _
      have hc : ¬ (i < fork_len ∧ sp.y < max_y - 1) := by omega
      rw [addFork_loop_traced, addFork_loop, if_neg hc, if_neg hc]
      exact ⟨rfl, by simp⟩
    refine ⟨hloop, ?_⟩
    intro depth sp segs w hn
    rw [addFork_traced, addFork]
    exact hloop _ _ _ _ _ _ _ hn le_rfl
  | succ n ih =>
    have hloop : ∀ (depth : Nat) (call_row fork_len i : Int) (sp : LightningSegment)
        (segs : List LightningSegment) (w : World),
        (max_y - 1 - sp.y).toNat ≤ n + 1 → call_row ≤ sp.y →
        (addFork_loop_traced max_x max_y depth call_row fork_len i sp segs w).1 =
            addFork_loop max_x max_y fork_len i sp segs w ∧
          ∀ c ∈ (addFork_loop_traced max_x max_y depth call_row fork_len i sp segs w).2,
            c.parent_row < c.start_row ∧ c.depth ≤ depth + (max_y - 1 - sp.y).toNat := by
      intro depth call_row fork_len i sp segs w hn hrow
      rw [addFork_loop_traced, addFork_loop]
      by_cases hc : i < fork_len ∧ sp.y < max_y - 1
      · rw [if_pos hc, if_pos hc]
        dsimp only
        generalize hsp : (⟨max 1 (min (max_x - 1) (sp.x + (uniform_int_distribution (-1) 1 w).1)),
          sp.y + 1, (now (uniform_int_distribution (-1) 1 w).2).1⟩ : LightningSegment) = sp1
        have hy1 : sp1.y = sp.y + 1 := by rw [← hsp]
        generalize (uniform_int_distribution 0 100
          (now (uniform_int_distribution (-1) 1 w).2).2) = c1
        have hm1 : (max_y - 1 - sp1.y).toNat ≤ n := by rw [hy1]; omega
        obtain ⟨f1, f2⟩ := ih.2 (depth + 1) sp1 (segs ++ [sp1]) c1.2 hm1
        have hsub : (if c1.1 < SUBFORK_CHANCE then
              ((addFork_traced max_x max_y (depth + 1) sp1 (segs ++ [sp1]) c1.2).1,
                ({ parent_row := call_row, start_row := sp.y + 1, depth := depth + 1 } : ForkCall) ::
                  (addFork_traced max_x max_y (depth + 1) sp1 (segs ++ [sp1]) c1.2).2)
            else ((segs ++ [sp1], c1.2), [])).1 =
            (if c1.1 < SUBFORK_CHANCE then addFork max_x max_y sp1 (segs ++ [sp1]) c1.2
              else (segs ++ [sp1], c1.2)) := by
          split_ifs
          · exact f1
          · rfl
        have htr : ∀ c ∈ (if c1.1 < SUBFORK_CHANCE then
              ((addFork_traced max_x max_y (depth + 1) sp1 (segs ++ [sp1]) c1.2).1,
                ({ parent_row := call_row, start_row := sp.y + 1, depth := depth + 1 } : ForkCall) ::
                  (addFork_traced max_x max_y (depth + 1) sp1 (segs ++ [sp1]) c1.2).2)
            else ((segs ++ [sp1], c1.2), [])).2,
            c.parent_row < c.start_row ∧ c.depth ≤ depth + (max_y - 1 - sp.y).toNat := by
          intro c hcm
          split_ifs at hcm
          · rcases List.mem_cons.1 hcm with h | h
            · rw [h]
              dsimp only
              exact ⟨by omega, by omega⟩
            · have := f2 c h
              exact ⟨this.1, by omega⟩
          · simp at hcm
        rw [hsub]
        obtain ⟨g1, g2⟩ := ih.1 depth call_row fork_len (i + 1) sp1
          (if c1.1 < SUBFORK_CHANCE then addFork max_x max_y sp1 (segs ++ [sp1]) c1.2
            else (segs ++ [sp1], c1.2)).1
          (if c1.1 < SUBFORK_CHANCE then addFork max_x max_y sp1 (segs ++ [sp1]) c1.2
            else (segs ++ [sp1], c1.2)).2 hm1 (by omega)
        refine ⟨g1, ?_⟩
        intro c hcm
        rcases List.mem_append.1 hcm with h | h
        · exact htr c h
        · have := g2 c h
          exact ⟨this.1, by omega⟩
      · rw [if_neg hc, if_neg hc]
        exact ⟨rfl, by simp⟩
    refine ⟨hloop, ?_⟩
    intro depth sp segs w hn
    rw [addFork_traced, addFork]
    exact hloop _ _ _ _ _ _ _ hn le_rfl

/-- A call of `addFork` that starts on row `max_y - 1` or beyond draws its length and returns
without appending or recursing. -/
theorem addFork_at_bottom (max_x max_y : Int) (sp : LightningSegment)
    (segs : List LightningSegment) (w : World) (h : max_y - 1 ≤ sp.y) :
    addFork max_x max_y sp segs w = (segs, (len_dist max_y w).2) ∧
      (addFork_traced max_x max_y 0 sp segs w).2 = [] := by
  have hc : ¬ ((0 : Int) < (len_dist max_y w).1 ∧ sp.y < max_y - 1) := by omega
  constructor
  · rw [addFork, addFork_loop, if_neg hc]
  · rw [addFork_traced, addFork_loop_traced, if_neg hc]

/-! ## C17 -/

/-- C17: `addFork` returns for every starting segment, grid and sources (it is a total function,
and equals its instrumented version); every recursive sub-fork call starts on a strictly greater
row than the call that makes it started on; every segment appended, by the call or a sub-fork, is
on row `height-1` at most, and a call that starts on row `height-1` or beyond appends nothing and
makes no recursive call; the nesting depth of every recursive call is at most `height-1` minus the
starting row (0 when the starting row is `height-1` or more). -/
theorem C17_addFork_terminates (max_x max_y : Int) (start_point : LightningSegment)
    (segments : List LightningSegment) (w : World) :
    (addFork_traced max_x max_y 0 start_point segments w).1 =
        addFork max_x max_y start_point segments w ∧
      (∀ c ∈ (addFork_traced max_x max_y 0 start_point segments w).2,
        c.parent_row < c.start_row ∧ c.depth ≤ (max_y - 1 - start_point.y).toNat) ∧
      (∃ l, (addFork max_x max_y start_point segments w).1 = segments ++ l ∧
        ∀ s ∈ l, start_point.y < s.y ∧ s.y ≤ max_y - 1) ∧
      (max_y - 1 ≤ start_point.y →
        addFork max_x max_y start_point segments w = (segments, (len_dist max_y w).2) ∧
          (addFork_traced max_x max_y 0 start_point segments w).2 = []) := by
  obtain ⟨h1, h2⟩ := (addFork_traced_aux max_x max_y _).2 0 start_point segments w le_rfl
  obtain ⟨l, j, e, -, m⟩ := addFork_outcome max_x max_y start_point segments w
  refine ⟨h1, ?_, ⟨l, e, fun s hs => ⟨(m s hs).1.1, (m s hs).1.2.1⟩⟩,
    addFork_at_bottom max_x max_y start_point segments w⟩
  intro c hc
  have := h2 c hc
  exact ⟨this.1, by omega⟩

/-! ## C13 -/

/-- C13: in a frame that observes the resize flag, whatever bolts were active and whatever their
phase, the flag is cleared, the active-bolt collection is emptied and the drop vector is rebuilt
with one empty slot (`-1`) per column of the new width, all before the spawn and update steps of
that frame, which run on the cleared state. -/
theorem C13_resize_clears (bright_color : String) (s : MainState) (width height : Int) (w : World)
    (hw : 0 ≤ width) :
    (resize_block true (width, height) s).1 = false ∧
      (resize_block true (width, height) s).2 = handle_resize (some (width, height)) s ∧
      (handle_resize (some (width, height)) s).active_bolts = [] ∧
      (handle_resize (some (width, height)) s).width = width ∧
      ((handle_resize (some (width, height)) s).drops.length : Int) = width ∧
      (∀ d ∈ (handle_resize (some (width, height)) s).drops, d = -1) ∧
      frame bright_color (some (width, height)) s w =
        frame bright_color none (handle_resize (some (width, height)) s) w ∧
      (frame bright_color (some (width, height)) s w).1.active_bolts.length ≤ 1 := by
  refine ⟨rfl, rfl, rfl, rfl, ?_, ?_, rfl, ?_⟩
  · simp only [handle_resize, List.length_replicate]
    omega
  · intro d hd
    simp only [handle_resize] at hd
    exact List.eq_of_mem_replicate hd
  · rw [frame_active_bolts]
    refine le_trans (update_bolts_length_le _ _) ?_
    unfold spawn_step
    dsimp only
    split_ifs <;> simp [handle_resize]

/-- C13 witness: a resize to 20 x 10 observed with two bolts active. -/
theorem C13_resize_clears_witness :
    (0 : Int) ≤ 20 ∧
      (resize_block true (20, 10) main_busy).1 = false ∧
      (resize_block true (20, 10) main_busy).2 = handle_resize (some (20, 10)) main_busy ∧
      (handle_resize (some (20, 10)) main_busy).active_bolts = [] ∧
      (handle_resize (some (20, 10)) main_busy).width = 20 ∧
      ((handle_resize (some (20, 10)) main_busy).drops.length : Int) = 20 ∧
      (∀ d ∈ (handle_resize (some (20, 10)) main_busy).drops, d = -1) ∧
      frame "" (some (20, 10)) main_busy world_count =
        frame "" none (handle_resize (some (20, 10)) main_busy) world_count ∧
      (frame "" (some (20, 10)) main_busy world_count).1.active_bolts.length ≤ 1 :=
  ⟨by decide, C13_resize_clears "" main_busy 20 10 world_count (by decide)⟩

/-! ## C16 -/

/-- C16, the code counted: the branching checks draw from the 101 values `0 .. 100`; 13 of them
are below `FORK_CHANCE` and 5 below `SUBFORK_CHANCE`, so the proportions are 13/101 and 5/101, not
13/100 and 5/100; the value 100 is among those drawn. -/
theorem C16_check_proportions :
    check_values = (List.range 101).map Int.ofNat ∧
      (∀ w : World, (uniform_int_distribution 0 100 w).1 ∈ check_values) ∧
      (100 : Int) ∈ check_values ∧
      check_values.length = 101 ∧
      (check_values.filter (fun v => v < FORK_CHANCE)).length = 13 ∧
      (check_values.filter (fun v => v < SUBFORK_CHANCE)).length = 5 ∧
      ((check_values.filter (fun v => v < FORK_CHANCE)).length : ℚ) / check_values.length ≠
        13 / 100 ∧
      ((check_values.filter (fun v => v < SUBFORK_CHANCE)).length : ℚ) / check_values.length ≠
        5 / 100 := by
  have e : check_values = (List.range 101).map Int.ofNat := by decide
  have h13 : (check_values.filter (fun v => v < FORK_CHANCE)).length = 13 := by decide
  have h5 : (check_values.filter (fun v => v < SUBFORK_CHANCE)).length = 5 := by decide
  have hl : check_values.length = 101 := by decide
  refine ⟨e, ?_, by decide, hl, h13, h5, ?_, ?_⟩
  · intro w
    rw [e]
    have hr := uniform_int_distribution_range 0 100 w (by decide)
    rw [List.mem_map]
    refine ⟨((uniform_int_distribution 0 100 w).1).toNat, ?_, ?_⟩
    · rw [List.mem_range]; omega
    · exact Int.toNat_of_nonneg hr.1
  · rw [h13, hl]; norm_num
  · rw [h5, hl]; norm_num

end TerminalRain
